import Mathlib

/-!
A verification model of `ins-pdf-utils` (`src/lib.rs`), a PDF-merge library.
The library merges a sequence of decoded PDF document graphs into a single
document: it renumbers each input's indirect objects into disjoint id ranges,
harvests every input's pages via its page tree, classifies all objects by
their `/Type` name (merging Catalog/Pages roles and passing other objects
through), rebuilds the root page tree, and assembles one output document.

The model is a shallow embedding of `merge_documents_to` and `merge_documents`
from `src/lib.rs`.  The `lopdf` primitives the code calls (`Document`,
`Object`, `Dictionary` operations, `renumber_objects_with`, `get_pages`) are
external-collaborator code; they are modelled here from their documented
contracts, which the specification restates (identity renumbering assigns
fresh contiguous identifiers starting at `startId` in ascending old-id order
and rewrites every reference; page harvesting enumerates reachable Page
objects via the page tree in page order; dictionaries are insertion-ordered
maps whose `extend` inserts every entry of the argument, overwriting values
at existing keys).
-/

/-- An indirect-object identifier: a (number, generation) pair, as in
`lopdf::ObjectId = (u32, u16)`. -/
abbrev ObjectId := Nat × Nat

/-- The PDF object union, mirroring `lopdf::Object`.  Dictionaries are
insertion-ordered key/value lists (lopdf stores them in a `LinkedHashMap`).
Real-number payloads and stream byte payloads play no role in the merge and
are carried as inert data. -/
inductive Object where
  | null
  | boolean (b : Bool)
  | integer (i : Int)
  | real (payload : Int)
  | name (s : String)
  | str (s : String)
  | array (elems : List Object)
  | dictionary (entries : List (String × Object))
  | stream (dict : List (String × Object)) (content : List Nat)
  | reference (id : ObjectId)
deriving Repr

/-- A dictionary body: the insertion-ordered entry list of a
`lopdf::Dictionary`. -/
abbrev Dict := List (String × Object)

mutual
/-- Rewrite every `reference` inside an object through `f`.  This is the
reference-replacement traversal that `lopdf`'s renumbering performs on each
stored object. -/
def substObj (f : ObjectId → ObjectId) : Object → Object
  | .null => .null
  | .boolean b => .boolean b
  | .integer i => .integer i
  | .real p => .real p
  | .name s => .name s
  | .str s => .str s
  | .array xs => .array (substList f xs)
  | .dictionary d => .dictionary (substDict f d)
  | .stream d c => .stream (substDict f d) c
  | .reference id => .reference (f id)

/-- `substObj` mapped over an array's elements. -/
def substList (f : ObjectId → ObjectId) : List Object → List Object
  | [] => []
  | x :: xs => substObj f x :: substList f xs

/-- `substObj` mapped over a dictionary's values; keys are untouched. -/
def substDict (f : ObjectId → ObjectId) : Dict → Dict
  | [] => []
  | (k, v) :: rest => (k, substObj f v) :: substDict f rest
end

/-- `Dictionary::get`: the value at the first entry whose key matches. -/
def dictGet (d : Dict) (k : String) : Option Object :=
  match d with
  | [] => none
  | (k', v) :: rest => if k' = k then some v else dictGet rest k

/-- `Dictionary::set` (`LinkedHashMap::insert`): replace the value in place
if the key is present, otherwise append the new entry at the end. -/
def dictSet (d : Dict) (k : String) (v : Object) : Dict :=
  match d with
  | [] => [(k, v)]
  | (k', v') :: rest => if k' = k then (k, v) :: rest else (k', v') :: dictSet rest k v

/-- `Dictionary::remove`: drop the entry with the given key, if any. -/
def dictRemove (d : Dict) (k : String) : Dict :=
  match d with
  | [] => []
  | (k', v') :: rest => if k' = k then rest else (k', v') :: dictRemove rest k

/-- `Dictionary::extend(other)`: insert every entry of `other` into `self`
in order, overwriting the value at any key already present (the
`LinkedHashMap` extend semantics). -/
def dictExtend (self other : Dict) : Dict :=
  other.foldl (fun acc kv => dictSet acc kv.1 kv.2) self

/-- The keys of a dictionary, in order. -/
def dictKeys (d : Dict) : List String := d.map (·.1)

/-- `Dictionary::type_name`: the value of the "Type" entry when it is a
name. -/
def dictTypeName (d : Dict) : Option String :=
  match dictGet d "Type" with
  | some (.name s) => some s
  | _ => none

/-- `Object::type_name`: defined for dictionaries and streams only. -/
def Object.type_name : Object → Option String
  | .dictionary d => dictTypeName d
  | .stream d _ => dictTypeName d
  | _ => none

/-- `object.type_name().unwrap_or("")` as used by the classification loop. -/
def Object.typeNameD (o : Object) : String := o.type_name.getD ""

/-- `Object::as_dict`: succeeds only on the dictionary variant. -/
def Object.as_dict : Object → Option Dict
  | .dictionary d => some d
  | _ => none

/-- `Object::as_reference`: succeeds only on the reference variant. -/
def Object.as_reference : Object → Option ObjectId
  | .reference id => some id
  | _ => none

/-- The strict key order of `BTreeMap<ObjectId, _>`: lexicographic on
(number, generation). -/
def idLt (a b : ObjectId) : Prop := a.1 < b.1 ∨ (a.1 = b.1 ∧ a.2 < b.2)

instance (a b : ObjectId) : Decidable (idLt a b) := by
  unfold idLt; exact inferInstance

/-- The object table model: a `BTreeMap<ObjectId, Object>` represented as an
association list kept sorted by strictly increasing key. -/
abbrev BtMap := List (ObjectId × Object)

/-- `BTreeMap` lookup on the sorted association list. -/
def btGet (m : BtMap) (k : ObjectId) : Option Object :=
  match m with
  | [] => none
  | (k', v) :: rest => if k' = k then some v else btGet rest k

/-- `BTreeMap::insert`: place the entry at its key position, replacing any
entry already at that key. -/
def btInsert (m : BtMap) (k : ObjectId) (v : Object) : BtMap :=
  match m with
  | [] => [(k, v)]
  | (k', v') :: rest =>
    if idLt k k' then (k, v) :: (k', v') :: rest
    else if k = k' then (k, v) :: rest
    else (k', v') :: btInsert rest k v

/-- `BTreeMap::extend` with a key/value sequence: insert each pair in
order. -/
def btExtend (m : BtMap) (l : List (ObjectId × Object)) : BtMap :=
  l.foldl (fun acc kv => btInsert acc kv.1 kv.2) m

/-- Build a `BTreeMap` from a key/value sequence (a
`collect::<BTreeMap<_, _>>()`). -/
def btFromList (l : List (ObjectId × Object)) : BtMap := btExtend [] l

/-- The keys of an object table, in iteration (ascending) order. -/
def btKeys (m : BtMap) : List ObjectId := m.map (·.1)

/-- The sortedness invariant of the `BTreeMap` model: keys strictly
increase along the list. -/
def BtSorted (m : BtMap) : Prop := List.Pairwise (fun a b => idLt a.1 b.1) m

/-- A decoded PDF document graph, mirroring `lopdf::Document`: the
indirect-object table, the trailer dictionary (whose "Root" entry references
the catalog), the `max_id` allocation counter, and the PDF version string. -/
structure Document where
  version : String
  trailer : Dict
  objects : BtMap
  max_id : Nat
deriving Repr

/-- `Document::with_version`: a fresh empty document. -/
def Document.with_version (v : String) : Document :=
  { version := v, trailer := [], objects := [], max_id := 0 }

/-- Position of a key in the ascending key list (used to compute the
renumbering replacement map: the i-th smallest old id is replaced by
`startingId + i`). -/
def keyIdx (keys : List ObjectId) (k : ObjectId) : Option Nat :=
  match keys with
  | [] => none
  | k' :: rest => if k' = k then some 0 else (keyIdx rest k).map (· + 1)

/-- The id-replacement function of one renumbering pass: an object id that
is the i-th key of the table becomes `(startingId + i, generation)`; ids not
in the table are left alone. -/
def replFor (objects : BtMap) (startingId : Nat) : ObjectId → ObjectId :=
  fun id =>
    match keyIdx (btKeys objects) id with
    | some i => (startingId + i, id.2)
    | none => id

/-- `Document::renumber_objects_with(starting_id)`: modelled from the spec's
renumbering contract ("reassigns every object's ObjectId (and every
Reference to it) to a fresh, contiguous identifier beginning at `startId`,
and returns the next free identifier (`startId + objectCount`)").  lopdf
assigns the fresh numbers in ascending old-id order, preserves generation
numbers, rewrites every reference through the same replacement, and sets
`max_id` to the last assigned number (`starting_id + count - 1`). -/
def Document.renumber_objects_with (d : Document) (startingId : Nat) : Document :=
  let repl := replFor d.objects startingId
  { version := d.version
    trailer := substDict repl d.trailer
    objects := d.objects.map (fun kv => (repl kv.1, substObj repl kv.2))
    max_id := startingId + d.objects.length - 1 }

/-- `Document::catalog()`: resolve the trailer's "Root" reference to a
dictionary in the object table. -/
def Document.catalog (d : Document) : Option Dict :=
  match dictGet d.trailer "Root" with
  | some (.reference id) =>
    match btGet d.objects id with
    | some (.dictionary dct) => some dct
    | _ => none
  | _ => none

/-- The recursive page-tree walk of `Document::get_pages`: read the node's
"Kids" array and, for each reference kid that resolves to a dictionary,
collect it if its type is "Page" or recurse if its type is "Pages".  `fuel`
bounds the recursion depth; it is chosen larger than the object count, which
covers every acyclic page tree (a cyclic page tree would not terminate in
the original either). -/
def collectPageIds (d : Document) : Nat → ObjectId → List ObjectId
  | 0, _ => []
  | fuel + 1, nodeId =>
    match btGet d.objects nodeId with
    | some (.dictionary dct) =>
      match dictGet dct "Kids" with
      | some (.array kids) =>
        kids.foldl
          (fun acc kid =>
            match kid with
            | .reference kidId =>
              match btGet d.objects kidId with
              | some (.dictionary kdct) =>
                if dictTypeName kdct = some "Page" then acc ++ [kidId]
                else if dictTypeName kdct = some "Pages" then
                  acc ++ collectPageIds d fuel kidId
                else acc
              | _ => acc
            | _ => acc)
          []
      | _ => []
    | _ => []

/-- `Document::get_pages`, modelled from the spec's harvesting step
("enumerate its reachable Page objects via its own page tree (not by
scanning the full object table) in that document's page order"): start from
the catalog's "Pages" reference and walk the tree; the result lists the
page object ids in page order. -/
def Document.get_pages (d : Document) : List ObjectId :=
  match d.catalog with
  | some cat =>
    match dictGet cat "Pages" with
    | some (.reference rootId) => collectPageIds d (d.objects.length + 1) rootId
    | _ => []
  | none => []

/-- The renumbering loop at the head of `merge_documents_to`: renumber each
document starting at the running `max_id` (seeded with 1) and step `max_id`
to `document.max_id + 1`.  Returns the renumbered documents and the final
`max_id`. -/
def renumberAll : List Document → Nat → List Document × Nat
  | [], maxId => ([], maxId)
  | d :: rest, maxId =>
    let d' := d.renumber_objects_with maxId
    let (rest', finalId) := renumberAll rest (d'.max_id + 1)
    (d' :: rest', finalId)

/-- The renumbered input documents, in input order. -/
def preparedDocs (documents : List Document) : List Document :=
  (renumberAll documents 1).1

/-- One document's contribution to `documents_pages`: its harvested page
ids paired with the objects stored at them (`document.get_object(id)`),
collected into a per-document `BTreeMap`. -/
def pageEntries (d : Document) : BtMap :=
  btFromList (d.get_pages.map (fun id => (id, (btGet d.objects id).getD .null)))

/-- The `documents_pages` accumulator: each renumbered document's harvested
page map, merged in input order. -/
def documentsPages (documents : List Document) : BtMap :=
  (preparedDocs documents).foldl (fun m d => btExtend m (pageEntries d)) []

/-- The `documents_objects` accumulator: every renumbered document's full
object table, merged in input order. -/
def documentsObjects (documents : List Document) : BtMap :=
  (preparedDocs documents).foldl (fun m d => btExtend m d.objects) []

/-- The mutable state of the classification loop: the pending Catalog
accumulator, the pending Pages accumulator, and the output document's
object table receiving the pass-through objects. -/
structure ClassifyAcc where
  catalog_object : Option (ObjectId × Object)
  pages_object : Option (ObjectId × Object)
  outObjects : BtMap
deriving Repr

/-- One iteration of the classification loop over `documents_objects`:
dispatch on `object.type_name().unwrap_or("")`.  "Catalog" keeps the
first-seen id but stores the current object; "Pages" (when a dictionary)
keeps the first-seen id and extends the current dictionary with the
accumulated one (accumulated entries overwrite same-named keys); "Page",
"Outlines" and "Outline" are skipped; anything else is inserted verbatim
into the output table. -/
def classifyStep (acc : ClassifyAcc) (entry : ObjectId × Object) : ClassifyAcc :=
  match entry.2.typeNameD with
  | "Catalog" =>
    { acc with
      catalog_object := some
        ((match acc.catalog_object with
          | some (id, _) => id
          | none => entry.1),
         entry.2) }
  | "Pages" =>
    match entry.2.as_dict with
    | some dictionary =>
      { acc with
        pages_object := some
          ((match acc.pages_object with
            | some (id, _) => id
            | none => entry.1),
           .dictionary
             (match acc.pages_object with
              | some (_, oldObject) =>
                match oldObject.as_dict with
                | some old_dictionary => dictExtend dictionary old_dictionary
                | none => dictionary
              | none => dictionary)) }
    | none => acc
  | "Page" => acc
  | "Outlines" => acc
  | "Outline" => acc
  | _ => { acc with outObjects := btInsert acc.outObjects entry.1 entry.2 }

/-- The classification loop, run over the merged object table of the
renumbered inputs. -/
def classifyAll (documents : List Document) : ClassifyAcc :=
  (documentsObjects documents).foldl classifyStep ⟨none, none, []⟩

/-- The result of `merge_documents_to`: either the consolidated document
(the graph assembled through `src/lib.rs:196`, which the finalizer then
renumbers, compresses and serializes into the output buffer), or one of the
two early returns, each of which prints its diagnostic line to stdout and
leaves the output buffer untouched (empty). -/
inductive MergeOutcome where
  | missingPagesRoot
  | missingCatalogRoot
  | ok (d : Document)
deriving Repr

/-- The page-reinsertion loop (`src/lib.rs:152-160`): every harvested page
that is a dictionary is inserted into the output table with its "Parent"
set to the designated root Pages id.  In the original this loop runs before
the missing-Catalog check; its result is discarded on that failure path, so
it is equivalently factored out here. -/
def mergeObjs1 (documents : List Document) (pid : ObjectId) : BtMap :=
  (documentsPages documents).foldl
    (fun m entry =>
      match entry.2.as_dict with
      | some dictionary =>
        btInsert m entry.1
          (.dictionary (dictSet dictionary "Parent" (.reference pid)))
      | none => m)
    (classifyAll documents).outObjects

/-- The root Pages rebuild (`src/lib.rs:168-184`): "Count" is set to the
harvested page count and "Kids" to the harvested ids as references (in the
`documents_pages` map's ascending-id order), and the dictionary is inserted
under the designated root Pages id. -/
def mergeObjs2 (documents : List Document) (pages_object : ObjectId × Object) : BtMap :=
  match pages_object.2.as_dict with
  | some dictionary =>
    btInsert (mergeObjs1 documents pages_object.1) pages_object.1
      (.dictionary
        (dictSet (dictSet dictionary "Count" (.integer (documentsPages documents).length))
          "Kids" (.array ((documentsPages documents).map (fun p => .reference p.1)))))
  | none => mergeObjs1 documents pages_object.1

/-- The Catalog rebuild (`src/lib.rs:185-193`): the accumulated catalog
object's dictionary gets "Pages" redirected to the root Pages id and
"Outlines" removed, and is inserted under the designated root Catalog
id. -/
def mergeObjs3 (documents : List Document)
    (pages_object catalog_object : ObjectId × Object) : BtMap :=
  match catalog_object.2.as_dict with
  | some dictionary =>
    btInsert (mergeObjs2 documents pages_object) catalog_object.1
      (.dictionary
        (dictRemove (dictSet dictionary "Pages" (.reference pages_object.1))
          "Outlines"))
  | none => mergeObjs2 documents pages_object

/-- `merge_documents_to` (`src/lib.rs:73-196`): renumber the inputs into
disjoint id ranges, harvest `documents_pages` and `documents_objects`,
classify every object, abort when no Pages or no Catalog object was found,
reinsert the harvested pages with "Parent" pointing at the designated root
Pages id, rebuild the root Pages dictionary's "Count" and "Kids", rebuild
the Catalog ("Pages" redirected, "Outlines" removed), set the trailer
"Root", and set `max_id` to the object count. -/
def merge_documents_to (documents : List Document) : MergeOutcome :=
  let acc := classifyAll documents
  let document := Document.with_version "1.5"
  match acc.pages_object with
  | none => .missingPagesRoot
  | some pages_object =>
    match acc.catalog_object with
    | none => .missingCatalogRoot
    | some catalog_object =>
      .ok { document with
            trailer := dictSet document.trailer "Root" (.reference catalog_object.1)
            objects := mergeObjs3 documents pages_object catalog_object
            max_id := (mergeObjs3 documents pages_object catalog_object).length }

/-- What the JavaScript caller of `mergePdf` receives from
`merge_documents` (`src/lib.rs:49-70`): the function always resolves with
the output buffer (it never raises an error from the merge logic); the
buffer holds the serialized merged document, or is empty when
`merge_documents_to` returned early. -/
inductive NapiResult where
  | buffer (saved : Option Document)
  | error (message : String)
deriving Repr

/-- `merge_documents`: decode the input buffers (modelled as already-decoded
documents), run `merge_documents_to`, and resolve with the target buffer. -/
def merge_documents (documents : List Document) : NapiResult :=
  .buffer
    (match merge_documents_to documents with
     | .ok d => some d
     | _ => none)

/-- Whether the caller observed an error. -/
def NapiResult.isError : NapiResult → Bool
  | .error _ => true
  | .buffer _ => false

/-- The merged document produced by `merge_documents_to`, when it succeeded. -/
def mergedDoc (documents : List Document) : Option Document :=
  match merge_documents_to documents with
  | .ok d => some d
  | _ => none

/-- Whether the merge reached the success path. -/
def mergeOk (documents : List Document) : Bool :=
  (mergedDoc documents).isSome

/-- The merged document's object table (empty when the merge failed). -/
def mergedObjects (documents : List Document) : BtMap :=
  ((mergedDoc documents).map Document.objects).getD []

/-- The merged document's version string. -/
def mergedVersion (documents : List Document) : Option String :=
  (mergedDoc documents).map Document.version

/-- Lookup in the merged document's object table. -/
def lookupMerged (documents : List Document) (id : ObjectId) : Option Object :=
  (mergedDoc documents).bind (fun d => btGet d.objects id)

/-- The `/Type` name of the merged object stored at `id`. -/
def typeAt (documents : List Document) (id : ObjectId) : Option String :=
  (lookupMerged documents id).bind Object.type_name

/-- The dictionary stored at `id` in the merged document. -/
def dictAt (documents : List Document) (id : ObjectId) : Option Dict :=
  (lookupMerged documents id).bind Object.as_dict

/-- The "Parent" reference of the merged dictionary stored at `id`. -/
def parentRefAt (documents : List Document) (id : ObjectId) : Option ObjectId :=
  match dictAt documents id with
  | some d =>
    match dictGet d "Parent" with
    | some (.reference p) => some p
    | _ => none
  | none => none

/-- The designated root Pages id: the first-seen Pages object's id kept by
the classification loop. -/
def designatedPagesId (documents : List Document) : Option ObjectId :=
  (classifyAll documents).pages_object.map (·.1)

/-- The designated root Catalog id: the first-seen Catalog object's id kept
by the classification loop. -/
def designatedCatalogId (documents : List Document) : Option ObjectId :=
  (classifyAll documents).catalog_object.map (·.1)

/-- The object held in the classification loop's Catalog accumulator. -/
def designatedCatalogObj (documents : List Document) : Option Object :=
  (classifyAll documents).catalog_object.map (·.2)

/-- The rebuilt root Pages dictionary in the merged document. -/
def rootPagesDict (documents : List Document) : Option Dict :=
  (designatedPagesId documents).bind (dictAt documents)

/-- The "Count" field of the rebuilt root Pages dictionary. -/
def rootCountField (documents : List Document) : Option Int :=
  match rootPagesDict documents with
  | some d =>
    match dictGet d "Count" with
    | some (.integer n) => some n
    | _ => none
  | none => none

/-- The length of the rebuilt root Pages dictionary's "Kids" array. -/
def rootKidsLen (documents : List Document) : Option Nat :=
  match rootPagesDict documents with
  | some d =>
    match dictGet d "Kids" with
    | some (.array kids) => some kids.length
    | _ => none
  | none => none

/-- The reference targets listed in the rebuilt root Pages dictionary's
"Kids" array. -/
def rootKidsIds (documents : List Document) : Option (List ObjectId) :=
  match rootPagesDict documents with
  | some d =>
    match dictGet d "Kids" with
    | some (.array kids) => some (kids.filterMap Object.as_reference)
    | _ => none
  | none => none

/-- The merged trailer's "Root" reference. -/
def trailerRootId (documents : List Document) : Option ObjectId :=
  match (mergedDoc documents).map Document.trailer with
  | some t =>
    match dictGet t "Root" with
    | some (.reference r) => some r
    | _ => none
  | none => none

/-- The "Pages" reference of the merged document's catalog (the dictionary
that the trailer's "Root" resolves to). -/
def catalogPagesRefId (documents : List Document) : Option ObjectId :=
  match (trailerRootId documents).bind (dictAt documents) with
  | some d =>
    match dictGet d "Pages" with
    | some (.reference p) => some p
    | _ => none
  | none => none

/-- An integer field of the merged document's catalog (used to observe which
source catalog's content survived). -/
def catalogFieldInt (documents : List Document) (k : String) : Option Int :=
  match (trailerRootId documents).bind (dictAt documents) with
  | some d =>
    match dictGet d k with
    | some (.integer n) => some n
    | _ => none
  | none => none

/-- How many objects of the merged table carry the given `/Type` name. -/
def countTypeAmong (documents : List Document) (t : String) : Nat :=
  (mergedObjects documents).countP (fun kv => kv.2.typeNameD == t)

/-- The sum of the inputs' leaf-page counts: each renumbered document's
harvested page list length, summed in input order. -/
def totalLeafPages (documents : List Document) : Nat :=
  ((preparedDocs documents).map (fun d => d.get_pages.length)).sum

/-- All harvested page ids, in harvest order: input-document order, and
within each document the document's own page order. -/
def allHarvestedIds (documents : List Document) : List ObjectId :=
  ((preparedDocs documents).map Document.get_pages).flatten

/-- Insert an id into an ascending id list, keeping it sorted and dropping
duplicates. -/
def insertSortedId (id : ObjectId) : List ObjectId → List ObjectId
  | [] => [id]
  | x :: rest =>
    if idLt id x then id :: x :: rest
    else if id = x then x :: rest
    else x :: insertSortedId id rest

/-- The ascending duplicate-free enumeration of a list of ids. -/
def sortIdsDedup (l : List ObjectId) : List ObjectId :=
  l.foldl (fun acc id => insertSortedId id acc) []

/-- The Pages-typed dictionaries of an entry stream, in stream order. -/
def pagesDictsIn (entries : List (ObjectId × Object)) : List Dict :=
  entries.filterMap
    (fun kv => if kv.2.typeNameD = "Pages" then kv.2.as_dict else none)

/-- The Pages-typed dictionaries of the classified object stream, in
classification (ascending id) order. -/
def pagesDictsOf (documents : List Document) : List Dict :=
  pagesDictsIn (documentsObjects documents)

/-- The first value found for key `k` among the Pages-typed dictionaries,
in classification order. -/
def firstPagesValue (documents : List Document) (k : String) : Option Object :=
  (pagesDictsOf documents).findSome? (fun dct => dictGet dct k)

/-- Lookup of key `k` in the classification loop's accumulated Pages
dictionary. -/
def accPagesGet (documents : List Document) (k : String) : Option Object :=
  match (classifyAll documents).pages_object with
  | some (_, o) =>
    match o.as_dict with
    | some d => dictGet d k
    | none => none
  | none => none

/-- The id of the first entry of the classified stream whose type is `t`. -/
def firstTypedId (documents : List Document) (t : String) : Option ObjectId :=
  ((documentsObjects documents).find? (fun kv => kv.2.typeNameD == t)).map (·.1)

/-- The object of the last entry of the classified stream whose type is
`t` (each matching entry overwrites the previous one, in stream order). -/
def lastTypedObj (documents : List Document) (t : String) : Option Object :=
  (documentsObjects documents).foldl
    (fun st kv => if kv.2.typeNameD == t then some kv.2 else st) none

/-- The `BTreeMap` representation invariant for every input document's
object table (the decoded object tables are `BTreeMap`s, so their iteration
order is sorted; the model carries this as an explicit hypothesis). -/
def AllWF (documents : List Document) : Prop :=
  ∀ d ∈ documents, BtSorted d.objects

/-- Each renumbered input's harvested page list names no page twice (a
well-formed page tree reaches each leaf once). -/
def HarvestNodup (documents : List Document) : Prop :=
  ∀ d ∈ preparedDocs documents, d.get_pages.Nodup

/-- Every Catalog-typed object of every input is a dictionary (a valid PDF
catalog is a dictionary, not a stream). -/
def CatalogObjectsAreDicts (documents : List Document) : Prop :=
  ∀ d ∈ documents, ∀ kv ∈ d.objects,
    kv.2.typeNameD = "Catalog" → (kv.2.as_dict).isSome = true

/-- Every Pages-typed dictionary of the classified stream has
duplicate-free keys (the `LinkedHashMap` representation invariant). -/
def PagesDictsKeysNodup (documents : List Document) : Prop :=
  ∀ kv ∈ documentsObjects documents,
    kv.2.typeNameD = "Pages" → (dictKeys ((kv.2.as_dict).getD [])).Nodup

/-- No input contains a Pages-typed object. -/
def NoPagesTyped (documents : List Document) : Prop :=
  ∀ d ∈ documents, ∀ kv ∈ d.objects, kv.2.typeNameD ≠ "Pages"

/-- No input contains a Catalog-typed object. -/
def NoCatalogTyped (documents : List Document) : Prop :=
  ∀ d ∈ documents, ∀ kv ∈ d.objects, kv.2.typeNameD ≠ "Catalog"

/-- Some input contains a Pages-typed dictionary. -/
def HasPagesDict (documents : List Document) : Prop :=
  ∃ d ∈ documents, ∃ kv ∈ d.objects,
    kv.2.typeNameD = "Pages" ∧ (kv.2.as_dict).isSome = true

/-- Pairwise-disjoint object-id sets. -/
def DocsDisjoint (documents : List Document) : Prop :=
  List.Pairwise
    (fun d1 d2 => ∀ id1 ∈ btKeys d1.objects, ∀ id2 ∈ btKeys d2.objects, id1 ≠ id2)
    documents

/-- The concatenation of the documents' object tables, in input order. -/
def flatObjects (documents : List Document) : BtMap :=
  (documents.map Document.objects).flatten

/-- The total number of objects across the inputs. -/
def totalObjCount (documents : List Document) : Nat :=
  (documents.map (fun d => d.objects.length)).sum

/-- A leaf page dictionary pointing at its owning Pages node. -/
def mkPage (parent : ObjectId) : Object :=
  .dictionary [("Type", .name "Page"), ("Parent", .reference parent)]

/-- Example input A: a two-page document (catalog id 1, Pages id 2, pages
ids 3 and 4); its catalog carries a distinguishing "Extra" field. -/
def docA : Document :=
  { version := "1.3"
    trailer := [("Root", .reference (1, 0))]
    objects :=
      [((1, 0), .dictionary
          [("Type", .name "Catalog"), ("Pages", .reference (2, 0)), ("Extra", .integer 1)]),
       ((2, 0), .dictionary
          [("Type", .name "Pages"),
           ("Kids", .array [.reference (3, 0), .reference (4, 0)]),
           ("Count", .integer 2)]),
       ((3, 0), mkPage (2, 0)),
       ((4, 0), mkPage (2, 0))]
    max_id := 4 }

/-- Example input B: a three-page document with the same pre-renumbering
ids as A; its catalog's "Extra" field differs from A's. -/
def docB : Document :=
  { version := "1.4"
    trailer := [("Root", .reference (1, 0))]
    objects :=
      [((1, 0), .dictionary
          [("Type", .name "Catalog"), ("Pages", .reference (2, 0)), ("Extra", .integer 2)]),
       ((2, 0), .dictionary
          [("Type", .name "Pages"),
           ("Kids", .array [.reference (3, 0), .reference (4, 0), .reference (5, 0)]),
           ("Count", .integer 3)]),
       ((3, 0), mkPage (2, 0)),
       ((4, 0), mkPage (2, 0)),
       ((5, 0), mkPage (2, 0))]
    max_id := 5 }

/-- A document whose page tree lists its two pages in the order
(id 4, id 3): the page order disagrees with the ascending object-id
order. -/
def docReversed : Document :=
  { version := "1.4"
    trailer := [("Root", .reference (1, 0))]
    objects :=
      [((1, 0), .dictionary
          [("Type", .name "Catalog"), ("Pages", .reference (2, 0))]),
       ((2, 0), .dictionary
          [("Type", .name "Pages"),
           ("Kids", .array [.reference (4, 0), .reference (3, 0)]),
           ("Count", .integer 2)]),
       ((3, 0), mkPage (2, 0)),
       ((4, 0), mkPage (2, 0))]
    max_id := 4 }

/-- A document with a Catalog but no Pages-typed object. -/
def docNoPages : Document :=
  { version := "1.4"
    trailer := [("Root", .reference (1, 0))]
    objects :=
      [((1, 0), .dictionary
          [("Type", .name "Catalog"), ("Pages", .reference (2, 0))])]
    max_id := 1 }

/-- A document with a Pages node and a page but no Catalog-typed object. -/
def docNoCatalog : Document :=
  { version := "1.4"
    trailer := [("Root", .reference (1, 0))]
    objects :=
      [((1, 0), .dictionary
          [("Type", .name "Pages"),
           ("Kids", .array [.reference (2, 0)]),
           ("Count", .integer 1)]),
       ((2, 0), mkPage (1, 0))]
    max_id := 2 }

instance (documents : List Document) : Decidable (AllWF documents) := by
  unfold AllWF BtSorted; exact inferInstance

instance (documents : List Document) : Decidable (HarvestNodup documents) := by
  unfold HarvestNodup; exact inferInstance

instance (documents : List Document) : Decidable (CatalogObjectsAreDicts documents) := by
  unfold CatalogObjectsAreDicts; exact inferInstance

instance (documents : List Document) : Decidable (PagesDictsKeysNodup documents) := by
  unfold PagesDictsKeysNodup; exact inferInstance

instance (documents : List Document) : Decidable (NoPagesTyped documents) := by
  unfold NoPagesTyped; exact inferInstance

instance (documents : List Document) : Decidable (NoCatalogTyped documents) := by
  unfold NoCatalogTyped; exact inferInstance

instance (documents : List Document) : Decidable (HasPagesDict documents) := by
  unfold HasPagesDict; exact inferInstance

instance (documents : List Document) : Decidable (DocsDisjoint documents) := by
  unfold DocsDisjoint; exact List.instDecidablePairwise _

/-- First-some choice on options (the lookup order of a two-part map). -/
def optOr {α : Type} (a b : Option α) : Option α :=
  match a with
  | some v => some v
  | none => b

theorem idLt_irrefl (a : ObjectId) : ¬ idLt a a := by
  simp [idLt]

theorem idLt_trans {a b c : ObjectId} (h1 : idLt a b) (h2 : idLt b c) : idLt a c := by
  simp only [idLt] at *; omega

theorem idLt_asymm {a b : ObjectId} (h : idLt a b) : ¬ idLt b a := by
  simp only [idLt] at *; omega

theorem idLt_ne {a b : ObjectId} (h : idLt a b) : a ≠ b := by
  rintro rfl; exact idLt_irrefl a h

theorem idLt_of_not_lt_of_ne {a b : ObjectId} (h1 : ¬ idLt a b) (h2 : a ≠ b) : idLt b a := by
  obtain ⟨a1, a2⟩ := a
  obtain ⟨b1, b2⟩ := b
  have h2' : ¬ (a1 = b1 ∧ a2 = b2) := by
    intro hc
    exact h2 (by simp [hc.1, hc.2])
  simp only [idLt] at h1 ⊢
  by_cases he : a1 = b1
  · subst he
    have hne : a2 ≠ b2 := fun hc => h2' ⟨rfl, hc⟩
    exact Or.inr ⟨rfl, by omega⟩
  · exact Or.inl (by omega)

theorem dictGet_dictSet_self (d : Dict) (k : String) (v : Object) :
    dictGet (dictSet d k v) k = some v := by
  induction d with
  | nil => simp [dictSet, dictGet]
  | cons kv rest ih =>
    obtain ⟨k', v'⟩ := kv
    by_cases h : k' = k
    · simp [dictSet, dictGet, h]
    · simp [dictSet, dictGet, h, ih]

theorem dictGet_dictSet_ne (d : Dict) {k j : String} (v : Object) (h : j ≠ k) :
    dictGet (dictSet d k v) j = dictGet d j := by
  induction d with
  | nil => simp [dictSet, dictGet, Ne.symm h]
  | cons kv rest ih =>
    obtain ⟨k', v'⟩ := kv
    simp only [dictSet]
    by_cases hk : k' = k
    · rw [if_pos hk]
      simp only [dictGet]
      rw [if_neg (fun hh : k = j => h hh.symm), if_neg (fun hh : k' = j => h (hk.symm.trans hh).symm)]
    · rw [if_neg hk]
      simp only [dictGet]
      by_cases hj : k' = j
      · rw [if_pos hj, if_pos hj]
      · rw [if_neg hj, if_neg hj]
        exact ih

theorem dictGet_dictRemove_ne (d : Dict) {k j : String} (h : j ≠ k) :
    dictGet (dictRemove d k) j = dictGet d j := by
  induction d with
  | nil => simp [dictRemove]
  | cons kv rest ih =>
    obtain ⟨k', v'⟩ := kv
    simp only [dictRemove]
    by_cases hk : k' = k
    · rw [if_pos hk]
      simp only [dictGet]
      rw [if_neg (fun hh : k' = j => h (hk.symm.trans hh).symm)]
    · rw [if_neg hk]
      simp only [dictGet]
      by_cases hj : k' = j
      · rw [if_pos hj, if_pos hj]
      · rw [if_neg hj, if_neg hj]
        exact ih

theorem dictKeys_dictSet_mem (d : Dict) (k : String) (v : Object) (h : k ∈ dictKeys d) :
    dictKeys (dictSet d k v) = dictKeys d := by
  induction d with
  | nil => simp [dictKeys] at h
  | cons kv rest ih =>
    obtain ⟨k', v'⟩ := kv
    by_cases hk : k' = k
    · simp [dictSet, hk, dictKeys]
    · simp only [dictKeys, List.map_cons, List.mem_cons] at h
      rcases h with h | h
      · exact absurd h.symm hk
      · have hrec := ih (by simpa [dictKeys] using h)
        simp only [dictSet]
        rw [if_neg hk]
        simp only [dictKeys, List.map_cons]
        rw [show List.map (fun x => x.1) (dictSet rest k v) = List.map Prod.fst rest from
          by simpa [dictKeys] using hrec]

theorem dictKeys_dictSet_not_mem (d : Dict) (k : String) (v : Object) (h : ¬ k ∈ dictKeys d) :
    dictKeys (dictSet d k v) = dictKeys d ++ [k] := by
  induction d with
  | nil => simp [dictSet, dictKeys]
  | cons kv rest ih =>
    obtain ⟨k', v'⟩ := kv
    simp only [dictKeys, List.map_cons, List.mem_cons] at h
    push_neg at h
    have hrec := ih (by simpa [dictKeys] using h.2)
    simp only [dictSet]
    rw [if_neg (fun hh : k' = k => h.1 hh.symm)]
    simp only [dictKeys, List.map_cons, List.cons_append]
    rw [show List.map (fun x => x.1) (dictSet rest k v) = List.map Prod.fst rest ++ [k] from
      by simpa [dictKeys] using hrec]

theorem nodup_dictKeys_dictSet (d : Dict) (k : String) (v : Object)
    (h : (dictKeys d).Nodup) : (dictKeys (dictSet d k v)).Nodup := by
  by_cases hm : k ∈ dictKeys d
  · rw [dictKeys_dictSet_mem d k v hm]; exact h
  · rw [dictKeys_dictSet_not_mem d k v hm]
    rw [List.nodup_append]
    refine ⟨h, List.nodup_singleton k, ?_⟩
    intro x hx hx'
    rw [List.mem_singleton] at hx'
    exact hm (hx' ▸ hx)

theorem dictGet_eq_none_of_not_mem {d : Dict} {k : String} (h : ¬ k ∈ dictKeys d) :
    dictGet d k = none := by
  induction d with
  | nil => rfl
  | cons kv rest ih =>
    obtain ⟨k', v'⟩ := kv
    simp only [dictKeys, List.map_cons, List.mem_cons] at h
    push_neg at h
    simp only [dictGet]
    rw [if_neg (fun hh : k' = k => h.1 hh.symm)]
    exact ih (by simpa [dictKeys] using h.2)

theorem dictGet_dictExtend (self other : Dict) (k : String)
    (h : (dictKeys other).Nodup) :
    dictGet (dictExtend self other) k = optOr (dictGet other k) (dictGet self k) := by
  induction other generalizing self with
  | nil => simp [dictExtend, dictGet, optOr]
  | cons kv rest ih =>
    obtain ⟨k0, v0⟩ := kv
    simp only [dictKeys, List.map_cons, List.nodup_cons] at h
    have hstep : dictExtend self ((k0, v0) :: rest) = dictExtend (dictSet self k0 v0) rest := by
      simp [dictExtend, List.foldl_cons]
    rw [hstep, ih _ (by simpa [dictKeys] using h.2)]
    by_cases hk : k0 = k
    · subst hk
      have hrest : dictGet rest k0 = none :=
        dictGet_eq_none_of_not_mem (by simpa [dictKeys] using h.1)
      simp [dictGet, hrest, optOr, dictGet_dictSet_self]
    · simp only [dictGet]
      rw [if_neg hk, dictGet_dictSet_ne _ v0 (fun hh : k = k0 => hk hh.symm)]

theorem nodup_dictKeys_dictExtend (self other : Dict) (h : (dictKeys self).Nodup) :
    (dictKeys (dictExtend self other)).Nodup := by
  induction other generalizing self with
  | nil => exact h
  | cons kv rest ih =>
    have hstep : dictExtend self (kv :: rest) = dictExtend (dictSet self kv.1 kv.2) rest := by
      simp [dictExtend, List.foldl_cons]
    rw [hstep]
    exact ih _ (nodup_dictKeys_dictSet _ _ _ h)

theorem dictTypeName_dictSet (d : Dict) {k : String} (v : Object) (h : k ≠ "Type") :
    dictTypeName (dictSet d k v) = dictTypeName d := by
  unfold dictTypeName
  rw [dictGet_dictSet_ne d v (Ne.symm h)]

theorem dictTypeName_dictRemove (d : Dict) {k : String} (h : k ≠ "Type") :
    dictTypeName (dictRemove d k) = dictTypeName d := by
  unfold dictTypeName
  rw [dictGet_dictRemove_ne d (Ne.symm h)]

theorem substDict_keys (f : ObjectId → ObjectId) (d : Dict) :
    dictKeys (substDict f d) = dictKeys d := by
  induction d with
  | nil => rfl
  | cons kv rest ih =>
    obtain ⟨k, v⟩ := kv
    simp only [substDict, dictKeys, List.map_cons] at *
    rw [ih]

theorem dictGet_substDict (f : ObjectId → ObjectId) (d : Dict) (k : String) :
    dictGet (substDict f d) k = (dictGet d k).map (substObj f) := by
  induction d with
  | nil => rfl
  | cons kv rest ih =>
    obtain ⟨k', v'⟩ := kv
    simp only [substDict, dictGet]
    by_cases hk : k' = k
    · rw [if_pos hk, if_pos hk]
      rfl
    · rw [if_neg hk, if_neg hk, ih]

theorem dictTypeName_substDict (f : ObjectId → ObjectId) (d : Dict) :
    dictTypeName (substDict f d) = dictTypeName d := by
  unfold dictTypeName
  rw [dictGet_substDict]
  cases h : dictGet d "Type" with
  | none => rfl
  | some v => cases v <;> simp [substObj]

theorem type_name_substObj (f : ObjectId → ObjectId) (o : Object) :
    (substObj f o).type_name = o.type_name := by
  cases o <;> simp [substObj, Object.type_name, dictTypeName_substDict]

theorem typeNameD_substObj (f : ObjectId → ObjectId) (o : Object) :
    (substObj f o).typeNameD = o.typeNameD := by
  unfold Object.typeNameD
  rw [type_name_substObj]

theorem as_dict_substObj (f : ObjectId → ObjectId) (o : Object) :
    (substObj f o).as_dict = (o.as_dict).map (substDict f) := by
  cases o <;> simp [substObj, Object.as_dict]

theorem btGet_btInsert_self (m : BtMap) (k : ObjectId) (v : Object) :
    btGet (btInsert m k v) k = some v := by
  induction m with
  | nil => simp [btInsert, btGet]
  | cons kv rest ih =>
    obtain ⟨k', v'⟩ := kv
    simp only [btInsert]
    by_cases h1 : idLt k k'
    · rw [if_pos h1]
      simp [btGet]
    · rw [if_neg h1]
      by_cases h2 : k = k'
      · rw [if_pos h2]
        simp [btGet]
      · rw [if_neg h2]
        simp only [btGet]
        rw [if_neg (fun hh : k' = k => h2 hh.symm)]
        exact ih

theorem btGet_btInsert_ne (m : BtMap) {k j : ObjectId} (v : Object) (h : j ≠ k) :
    btGet (btInsert m k v) j = btGet m j := by
  induction m with
  | nil =>
    simp only [btInsert, btGet]
    rw [if_neg (fun hh : k = j => h hh.symm)]
  | cons kv rest ih =>
    obtain ⟨k', v'⟩ := kv
    simp only [btInsert]
    by_cases h1 : idLt k k'
    · rw [if_pos h1]
      simp only [btGet]
      rw [if_neg (fun hh : k = j => h hh.symm)]
    · rw [if_neg h1]
      by_cases h2 : k = k'
      · rw [if_pos h2]
        simp only [btGet]
        rw [if_neg (fun hh : k = j => h hh.symm), if_neg (fun hh : k' = j => h (h2.trans hh).symm)]
      · rw [if_neg h2]
        simp only [btGet]
        by_cases h3 : k' = j
        · rw [if_pos h3, if_pos h3]
        · rw [if_neg h3, if_neg h3]
          exact ih

theorem mem_of_mem_btInsert {m : BtMap} {k : ObjectId} {v : Object} {x : ObjectId × Object}
    (h : x ∈ btInsert m k v) : x = (k, v) ∨ x ∈ m := by
  induction m with
  | nil => simpa [btInsert] using h
  | cons kv rest ih =>
    obtain ⟨k', v'⟩ := kv
    simp only [btInsert] at h
    by_cases h1 : idLt k k'
    · rw [if_pos h1] at h
      simpa using h
    · rw [if_neg h1] at h
      by_cases h2 : k = k'
      · rw [if_pos h2] at h
        rcases List.mem_cons.mp h with h | h
        · exact Or.inl h
        · exact Or.inr (List.mem_cons_of_mem _ h)
      · rw [if_neg h2] at h
        rcases List.mem_cons.mp h with h | h
        · exact Or.inr (h ▸ List.mem_cons_self _ _)
        · rcases ih h with h | h
          · exact Or.inl h
          · exact Or.inr (List.mem_cons_of_mem _ h)

theorem mem_btKeys_btInsert (m : BtMap) (k : ObjectId) (v : Object) (j : ObjectId) :
    j ∈ btKeys (btInsert m k v) ↔ j = k ∨ j ∈ btKeys m := by
  induction m with
  | nil => simp [btInsert, btKeys]
  | cons kv rest ih =>
    obtain ⟨k', v'⟩ := kv
    simp only [btInsert]
    by_cases h1 : idLt k k'
    · rw [if_pos h1]
      simp [btKeys]
    · rw [if_neg h1]
      by_cases h2 : k = k'
      · rw [if_pos h2]
        subst h2
        simp only [btKeys, List.map_cons, List.mem_cons]
        tauto
      · rw [if_neg h2]
        simp only [btKeys, List.map_cons, List.mem_cons] at *
        tauto

theorem btSorted_btInsert {m : BtMap} (k : ObjectId) (v : Object) (h : BtSorted m) :
    BtSorted (btInsert m k v) := by
  induction m with
  | nil => simp [btInsert, BtSorted]
  | cons kv rest ih =>
    obtain ⟨k', v'⟩ := kv
    rw [BtSorted, List.pairwise_cons] at h
    obtain ⟨hhead, hrest⟩ := h
    simp only [btInsert]
    by_cases h1 : idLt k k'
    · rw [if_pos h1]
      rw [BtSorted, List.pairwise_cons]
      constructor
      · intro y hy
        rcases List.mem_cons.mp hy with hy | hy
        · exact hy ▸ h1
        · exact idLt_trans h1 (hhead y hy)
      · rw [BtSorted, List.pairwise_cons] at *
        exact ⟨hhead, hrest⟩
    · rw [if_neg h1]
      by_cases h2 : k = k'
      · rw [if_pos h2]
        rw [BtSorted, List.pairwise_cons]
        exact ⟨fun y hy => h2 ▸ hhead y hy, hrest⟩
      · rw [if_neg h2]
        rw [BtSorted, List.pairwise_cons]
        constructor
        · intro y hy
          rcases mem_of_mem_btInsert hy with hy | hy
          · subst hy
            exact idLt_of_not_lt_of_ne h1 h2
          · exact hhead y hy
        · exact ih hrest

theorem mem_btInsert_iff {m : BtMap} (hs : BtSorted m) (k : ObjectId) (v : Object)
    (x : ObjectId × Object) :
    x ∈ btInsert m k v ↔ x = (k, v) ∨ (x ∈ m ∧ x.1 ≠ k) := by
  induction m with
  | nil => simp [btInsert]
  | cons kv rest ih =>
    obtain ⟨k', v'⟩ := kv
    rw [BtSorted, List.pairwise_cons] at hs
    obtain ⟨hhead, hrest⟩ := hs
    simp only [btInsert]
    by_cases h1 : idLt k k'
    · rw [if_pos h1]
      have hne : ∀ y ∈ (k', v') :: rest, y.1 ≠ k := by
        intro y hy
        rcases List.mem_cons.mp hy with hy | hy
        · exact hy ▸ (idLt_ne h1).symm
        · exact (idLt_ne (idLt_trans h1 (hhead y hy))).symm
      constructor
      · intro hx
        rcases List.mem_cons.mp hx with hx | hx
        · exact Or.inl hx
        · exact Or.inr ⟨hx, hne x hx⟩
      · rintro (hx | ⟨hx, _⟩)
        · exact hx ▸ List.mem_cons_self _ _
        · exact List.mem_cons_of_mem _ hx
    · rw [if_neg h1]
      by_cases h2 : k = k'
      · rw [if_pos h2]
        subst h2
        have hne : ∀ y ∈ rest, y.1 ≠ k := fun y hy => (idLt_ne (hhead y hy)).symm
        constructor
        · intro hx
          rcases List.mem_cons.mp hx with hx | hx
          · exact Or.inl hx
          · exact Or.inr ⟨List.mem_cons_of_mem _ hx, hne x hx⟩
        · rintro (hx | ⟨hx, hxk⟩)
          · exact hx ▸ List.mem_cons_self _ _
          · rcases List.mem_cons.mp hx with hx | hx
            · exact absurd (congrArg Prod.fst hx) hxk
            · exact List.mem_cons_of_mem _ hx
      · rw [if_neg h2]
        have hk'k : k' ≠ k := fun hh => h2 hh.symm
        constructor
        · intro hx
          rcases List.mem_cons.mp hx with hx | hx
          · exact Or.inr ⟨hx ▸ List.mem_cons_self _ _, hx ▸ hk'k⟩
          · rcases (ih hrest).mp hx with hx | ⟨hx1, hx2⟩
            · exact Or.inl hx
            · exact Or.inr ⟨List.mem_cons_of_mem _ hx1, hx2⟩
        · rintro (hx | ⟨hx, hxk⟩)
          · subst hx
            exact List.mem_cons_of_mem _ ((ih hrest).mpr (Or.inl rfl))
          · rcases List.mem_cons.mp hx with hx | hx
            · exact hx ▸ List.mem_cons_self _ _
            · exact List.mem_cons_of_mem _ ((ih hrest).mpr (Or.inr ⟨hx, hxk⟩))

theorem length_btInsert_of_not_mem {m : BtMap} {k : ObjectId} (v : Object)
    (h : ¬ k ∈ btKeys m) : (btInsert m k v).length = m.length + 1 := by
  induction m with
  | nil => simp [btInsert]
  | cons kv rest ih =>
    obtain ⟨k', v'⟩ := kv
    simp only [btKeys, List.map_cons, List.mem_cons] at h
    push_neg at h
    simp only [btInsert]
    by_cases h1 : idLt k k'
    · rw [if_pos h1]
      simp
    · rw [if_neg h1, if_neg h.1]
      simp only [List.length_cons]
      rw [ih (by simpa [btKeys] using h.2)]

theorem btInsert_eq_append {m : BtMap} {k : ObjectId} (v : Object)
    (h : ∀ x ∈ m, idLt x.1 k) : btInsert m k v = m ++ [(k, v)] := by
  induction m with
  | nil => simp [btInsert]
  | cons kv rest ih =>
    obtain ⟨k', v'⟩ := kv
    have hk' : idLt k' k := h (k', v') (List.mem_cons_self _ _)
    simp only [btInsert]
    rw [if_neg (idLt_asymm hk'), if_neg (Ne.symm (idLt_ne hk')),
      ih (fun x hx => h x (List.mem_cons_of_mem _ hx))]
    simp

theorem btGet_append (m l : BtMap) (k : ObjectId) :
    btGet (m ++ l) k = optOr (btGet m k) (btGet l k) := by
  induction m with
  | nil => simp [btGet, optOr]
  | cons kv rest ih =>
    obtain ⟨k', v'⟩ := kv
    simp only [List.cons_append, btGet]
    by_cases h : k' = k
    · rw [if_pos h, if_pos h]
      rfl
    · rw [if_neg h, if_neg h]
      exact ih

theorem mem_of_mem_btExtend {m : BtMap} {l : List (ObjectId × Object)}
    {x : ObjectId × Object} (h : x ∈ btExtend m l) : x ∈ m ∨ x ∈ l := by
  induction l generalizing m with
  | nil => exact Or.inl h
  | cons a rest ih =>
    have hstep : btExtend m (a :: rest) = btExtend (btInsert m a.1 a.2) rest := by
      simp [btExtend, List.foldl_cons]
    rw [hstep] at h
    rcases ih h with h | h
    · rcases mem_of_mem_btInsert h with h | h
      · exact Or.inr (List.mem_cons.mpr (Or.inl h))
      · exact Or.inl h
    · exact Or.inr (List.mem_cons_of_mem _ h)

theorem btSorted_btExtend {m : BtMap} (l : List (ObjectId × Object)) (h : BtSorted m) :
    BtSorted (btExtend m l) := by
  induction l generalizing m with
  | nil => exact h
  | cons a rest ih =>
    have hstep : btExtend m (a :: rest) = btExtend (btInsert m a.1 a.2) rest := by
      simp [btExtend, List.foldl_cons]
    rw [hstep]
    exact ih (btSorted_btInsert _ _ h)

theorem btSorted_btFromList (l : List (ObjectId × Object)) : BtSorted (btFromList l) :=
  btSorted_btExtend l (by simp [BtSorted])

theorem btExtend_eq_append {m : BtMap} {l : List (ObjectId × Object)}
    (hml : ∀ x ∈ m, ∀ y ∈ l, idLt x.1 y.1)
    (hl : List.Pairwise (fun a b => idLt a.1 b.1) l) :
    btExtend m l = m ++ l := by
  induction l generalizing m with
  | nil => simp [btExtend]
  | cons a rest ih =>
    have hstep : btExtend m (a :: rest) = btExtend (btInsert m a.1 a.2) rest := by
      simp [btExtend, List.foldl_cons]
    rw [List.pairwise_cons] at hl
    have hins : btInsert m a.1 a.2 = m ++ [a] := by
      have := btInsert_eq_append (m := m) (k := a.1) a.2
        (fun x hx => hml x hx a (List.mem_cons_self _ _))
      simpa using this
    rw [hstep, hins, ih]
    · simp
    · intro x hx y hy
      rcases List.mem_append.mp hx with hx | hx
      · exact hml x hx y (List.mem_cons_of_mem _ hy)
      · rw [List.mem_singleton.mp hx]
        exact hl.1 y hy
    · exact hl.2

theorem mem_btKeys_btExtend (m : BtMap) (l : List (ObjectId × Object)) (j : ObjectId) :
    j ∈ btKeys (btExtend m l) ↔ j ∈ btKeys m ∨ j ∈ btKeys l := by
  induction l generalizing m with
  | nil => simp [btExtend, btKeys]
  | cons a rest ih =>
    have hstep : btExtend m (a :: rest) = btExtend (btInsert m a.1 a.2) rest := by
      simp [btExtend, List.foldl_cons]
    rw [hstep, ih]
    rw [mem_btKeys_btInsert]
    simp only [btKeys, List.map_cons, List.mem_cons]
    tauto

theorem length_btExtend {m : BtMap} {l : List (ObjectId × Object)}
    (hnd : (l.map (·.1)).Nodup) (hdisj : ∀ y ∈ l, ¬ y.1 ∈ btKeys m) :
    (btExtend m l).length = m.length + l.length := by
  induction l generalizing m with
  | nil => simp [btExtend]
  | cons a rest ih =>
    have hstep : btExtend m (a :: rest) = btExtend (btInsert m a.1 a.2) rest := by
      simp [btExtend, List.foldl_cons]
    simp only [List.map_cons, List.nodup_cons] at hnd
    rw [hstep, ih hnd.2]
    · rw [length_btInsert_of_not_mem a.2 (hdisj a (List.mem_cons_self _ _))]
      simp only [List.length_cons]
      omega
    · intro y hy
      rw [mem_btKeys_btInsert]
      push_neg
      constructor
      · intro hc
        exact hnd.1 (hc ▸ List.mem_map_of_mem (·.1) hy)
      · exact hdisj y (List.mem_cons_of_mem _ hy)

theorem btGet_eq_some_of_mem {m : BtMap} {k : ObjectId} {v : Object}
    (hs : BtSorted m) (h : (k, v) ∈ m) : btGet m k = some v := by
  induction m with
  | nil => simp at h
  | cons kv rest ih =>
    obtain ⟨k', v'⟩ := kv
    rw [BtSorted, List.pairwise_cons] at hs
    rcases List.mem_cons.mp h with h | h
    · rw [Prod.mk.injEq] at h
      simp [btGet, h.1, h.2]
    · have hne : k' ≠ k := by
        have := hs.1 (k, v) h
        exact fun hh => idLt_irrefl k (hh ▸ this)
      simp only [btGet]
      rw [if_neg hne]
      exact ih hs.2 h

theorem mem_of_btGet_eq_some {m : BtMap} {k : ObjectId} {v : Object}
    (h : btGet m k = some v) : (k, v) ∈ m := by
  induction m with
  | nil => simp [btGet] at h
  | cons kv rest ih =>
    obtain ⟨k', v'⟩ := kv
    simp only [btGet] at h
    by_cases hk : k' = k
    · rw [if_pos hk] at h
      injection h with hv
      exact List.mem_cons.mpr (Or.inl (by rw [hk, hv]))
    · rw [if_neg hk] at h
      exact List.mem_cons_of_mem _ (ih h)

theorem mem_btKeys_of_btGet_eq_some {m : BtMap} {k : ObjectId} {v : Object}
    (h : btGet m k = some v) : k ∈ btKeys m :=
  List.mem_map_of_mem (·.1) (mem_of_btGet_eq_some h)

theorem keyIdx_map_range (ks : List ObjectId) (hp : List.Pairwise idLt ks) (s : Nat) :
    ks.map (fun k =>
        match keyIdx ks k with
        | some i => s + i
        | none => k.1) = List.range' s ks.length := by
  induction ks generalizing s with
  | nil => simp
  | cons k0 rest ih =>
    rw [List.pairwise_cons] at hp
    simp only [List.map_cons, List.length_cons, List.range'_succ]
    have hhead : (match keyIdx (k0 :: rest) k0 with
        | some i => s + i
        | none => k0.1) = s := by simp [keyIdx]
    rw [hhead]
    congr 1
    have hcong : List.map (fun k =>
          match keyIdx (k0 :: rest) k with
          | some i => s + i
          | none => k.1) rest
        = List.map (fun k =>
          match keyIdx rest k with
          | some i => (s + 1) + i
          | none => k.1) rest := by
      apply List.map_congr_left
      intro k hk
      have hne : k0 ≠ k := idLt_ne (hp.1 k hk)
      simp only [keyIdx, if_neg hne]
      cases h : keyIdx rest k with
      | none => rfl
      | some j =>
        show s + (j + 1) = s + 1 + j
        omega
    rw [hcong]
    exact ih hp.2 (s + 1)

theorem renumber_objects_length (d : Document) (s : Nat) :
    (d.renumber_objects_with s).objects.length = d.objects.length := by
  simp [Document.renumber_objects_with]

theorem btKeys_renumber_nums (d : Document) (s : Nat) (hwf : BtSorted d.objects) :
    (btKeys (d.renumber_objects_with s).objects).map (·.1) =
      List.range' s d.objects.length := by
  have hks : List.Pairwise idLt (btKeys d.objects) := by
    rw [btKeys, List.pairwise_map]
    exact hwf
  have h1 : (btKeys (d.renumber_objects_with s).objects).map (·.1)
      = (btKeys d.objects).map (fun k =>
          match keyIdx (btKeys d.objects) k with
          | some i => s + i
          | none => k.1) := by
    simp only [Document.renumber_objects_with, btKeys, List.map_map]
    apply List.map_congr_left
    intro kv _
    simp only [Function.comp, replFor, btKeys]
    cases h : keyIdx (List.map (fun x => x.1) d.objects) kv.1 <;> simp [h]
  rw [h1]
  have h2 := keyIdx_map_range (btKeys d.objects) hks s
  simpa [btKeys] using h2

theorem renumber_sorted (d : Document) (s : Nat) (hwf : BtSorted d.objects) :
    BtSorted (d.renumber_objects_with s).objects := by
  have hnum : List.Pairwise (· < ·)
      ((btKeys (d.renumber_objects_with s).objects).map (·.1)) := by
    rw [btKeys_renumber_nums d s hwf]
    exact List.pairwise_lt_range' s _
  rw [btKeys, List.map_map, List.pairwise_map] at hnum
  exact hnum.imp (fun h => Or.inl h)

theorem renumber_keys_bounds (d : Document) (s : Nat) (hwf : BtSorted d.objects) :
    ∀ id ∈ btKeys (d.renumber_objects_with s).objects,
      s ≤ id.1 ∧ id.1 < s + d.objects.length := by
  intro id hid
  have : id.1 ∈ (btKeys (d.renumber_objects_with s).objects).map (·.1) :=
    List.mem_map_of_mem (·.1) hid
  rw [btKeys_renumber_nums d s hwf] at this
  exact List.mem_range'_1.mp this

theorem renumber_max_id (d : Document) (s : Nat) :
    (d.renumber_objects_with s).max_id = s + d.objects.length - 1 := rfl

theorem mem_renumber_entries {d : Document} {s : Nat} {kv' : ObjectId × Object}
    (h : kv' ∈ (d.renumber_objects_with s).objects) :
    ∃ kv ∈ d.objects, kv' = (replFor d.objects s kv.1, substObj (replFor d.objects s) kv.2) := by
  simp only [Document.renumber_objects_with, List.mem_map] at h
  obtain ⟨kv, hkv, heq⟩ := h
  exact ⟨kv, hkv, heq.symm⟩

theorem renumberAll_cons (d : Document) (rest : List Document) (s : Nat) :
    renumberAll (d :: rest) s =
      ((d.renumber_objects_with s) ::
         (renumberAll rest ((d.renumber_objects_with s).max_id + 1)).1,
       (renumberAll rest ((d.renumber_objects_with s).max_id + 1)).2) := rfl

theorem totalObjCount_cons (d : Document) (rest : List Document) :
    totalObjCount (d :: rest) = d.objects.length + totalObjCount rest := by
  simp [totalObjCount]

theorem renumberAll_spec (documents : List Document) (s : Nat) (hs : 1 ≤ s)
    (hwf : ∀ d ∈ documents, BtSorted d.objects) :
    (∀ d' ∈ (renumberAll documents s).1,
       BtSorted d'.objects ∧
       ∀ id ∈ btKeys d'.objects, s ≤ id.1 ∧ id.1 < (renumberAll documents s).2) ∧
    List.Pairwise (fun d1 d2 => ∀ id1 ∈ btKeys d1.objects, ∀ id2 ∈ btKeys d2.objects,
      id1.1 < id2.1) (renumberAll documents s).1 ∧
    (renumberAll documents s).2 = s + totalObjCount documents ∧
    (renumberAll documents s).1.map (fun d => d.objects.length)
      = documents.map (fun d => d.objects.length) := by
  induction documents generalizing s with
  | nil =>
    refine ⟨by simp [renumberAll], by simp [renumberAll], ?_, by simp [renumberAll]⟩
    simp [renumberAll, totalObjCount]
  | cons d rest ih =>
    have hwfd : BtSorted d.objects := hwf d (List.mem_cons_self _ _)
    have hwfrest : ∀ x ∈ rest, BtSorted x.objects :=
      fun x hx => hwf x (List.mem_cons_of_mem _ hx)
    set n := d.objects.length with hn
    have hsn : (d.renumber_objects_with s).max_id + 1 = s + n := by
      rw [renumber_max_id]
      omega
    have hs' : 1 ≤ s + n := by omega
    have ihr := ih (s + n) hs' hwfrest
    rw [renumberAll_cons, hsn]
    obtain ⟨ihEach, ihPair, ihFinal, ihLen⟩ := ihr
    have hdBounds : ∀ id ∈ btKeys (d.renumber_objects_with s).objects,
        s ≤ id.1 ∧ id.1 < s + n := renumber_keys_bounds d s hwfd
    have hfinalGe : s + n ≤ (renumberAll rest (s + n)).2 := by
      rw [ihFinal]
      omega
    refine ⟨?_, ?_, ?_, ?_⟩
    · intro d' hd'
      rcases List.mem_cons.mp hd' with hd' | hd'
      · subst hd'
        refine ⟨renumber_sorted d s hwfd, ?_⟩
        intro id hid
        have := hdBounds id hid
        omega
      · obtain ⟨hsort, hbounds⟩ := ihEach d' hd'
        refine ⟨hsort, ?_⟩
        intro id hid
        have := hbounds id hid
        omega
    · rw [List.pairwise_cons]
      constructor
      · intro d2 hd2 id1 hid1 id2 hid2
        have h1 := hdBounds id1 hid1
        have h2 := (ihEach d2 hd2).2 id2 hid2
        omega
      · exact ihPair
    · rw [ihFinal, totalObjCount_cons]
      omega
    · simp only [List.map_cons, renumber_objects_length]
      rw [ihLen]

theorem collectPageIds_mem (d : Document) :
    ∀ fuel nodeId, ∀ id ∈ collectPageIds d fuel nodeId,
      ∃ kdct, btGet d.objects id = some (.dictionary kdct) ∧
        dictTypeName kdct = some "Page" := by
  intro fuel
  induction fuel with
  | zero =>
    intro nodeId id h
    simp [collectPageIds] at h
  | succ fuel ih =>
    intro nodeId id h
    simp only [collectPageIds] at h
    split at h
    · split at h
      · rename_i dct hdct kids hkids
        suffices hinv : ∀ (ks : List Object) (acc : List ObjectId),
            (∀ x ∈ acc, ∃ kdct, btGet d.objects x = some (.dictionary kdct) ∧
              dictTypeName kdct = some "Page") →
            ∀ x ∈ ks.foldl
              (fun acc kid =>
                match kid with
                | .reference kidId =>
                  match btGet d.objects kidId with
                  | some (.dictionary kdct) =>
                    if dictTypeName kdct = some "Page" then acc ++ [kidId]
                    else if dictTypeName kdct = some "Pages" then
                      acc ++ collectPageIds d fuel kidId
                    else acc
                  | _ => acc
                | _ => acc)
              acc,
            ∃ kdct, btGet d.objects x = some (.dictionary kdct) ∧
              dictTypeName kdct = some "Page" by
          exact hinv kids [] (by simp) id h
        intro ks
        induction ks with
        | nil =>
          intro acc hacc x hx
          exact hacc x hx
        | cons kid krest kih =>
          intro acc hacc x hx
          simp only [List.foldl_cons] at hx
          refine kih _ ?_ x hx
          intro y hy
          split at hy
          · rename_i kidId
            split at hy
            · rename_i kdct hk
              split at hy
              · rename_i hp1
                rcases List.mem_append.mp hy with hy | hy
                · exact hacc y hy
                · rw [List.mem_singleton.mp hy]
                  exact ⟨kdct, hk, hp1⟩
              · split at hy
                · rename_i hp2
                  rcases List.mem_append.mp hy with hy | hy
                  · exact hacc y hy
                  · exact ih kidId y hy
                · exact hacc y hy
            · exact hacc y hy
          · exact hacc y hy
      · simp at h
    · simp at h

theorem get_pages_mem (d : Document) :
    ∀ id ∈ d.get_pages,
      ∃ kdct, btGet d.objects id = some (.dictionary kdct) ∧
        dictTypeName kdct = some "Page" := by
  intro id hid
  unfold Document.get_pages at hid
  split at hid
  · split at hid
    · rename_i cat hcat rootId hroot
      exact collectPageIds_mem d _ rootId id hid
    · simp at hid
  · simp at hid

theorem get_pages_subset_keys (d : Document) :
    ∀ id ∈ d.get_pages, id ∈ btKeys d.objects := by
  intro id hid
  obtain ⟨kdct, hget, _⟩ := get_pages_mem d id hid
  exact mem_btKeys_of_btGet_eq_some hget

theorem foldl_btExtend_proj {α : Type} (f : α → BtMap) (l : List α) : ∀ (m : BtMap),
    (∀ a ∈ l, List.Pairwise (fun x y => idLt x.1 y.1) (f a)) →
    (∀ x ∈ m, ∀ a ∈ l, ∀ y ∈ f a, idLt x.1 y.1) →
    List.Pairwise (fun a b => ∀ x ∈ f a, ∀ y ∈ f b, idLt x.1 y.1) l →
    l.foldl (fun acc a => btExtend acc (f a)) m = m ++ (l.map f).flatten := by
  induction l with
  | nil =>
    intro m _ _ _
    simp
  | cons a rest ih =>
    intro m hsort hm hl
    rw [List.pairwise_cons] at hl
    simp only [List.foldl_cons]
    have hmb : btExtend m (f a) = m ++ f a :=
      btExtend_eq_append (fun x hx y hy => hm x hx a (List.mem_cons_self _ _) y hy)
        (hsort a (List.mem_cons_self _ _))
    rw [hmb, ih (m ++ f a) (fun b hb => hsort b (List.mem_cons_of_mem _ hb)) ?_ hl.2]
    · simp
    · intro x hx b hb y hy
      rcases List.mem_append.mp hx with hx | hx
      · exact hm x hx b (List.mem_cons_of_mem _ hb) y hy
      · exact hl.1 b hb x hx y hy

theorem documentsObjects_eq_flatten (documents : List Document) (hwf : AllWF documents) :
    documentsObjects documents = flatObjects (preparedDocs documents) := by
  obtain ⟨hEach, hPair, -, -⟩ := renumberAll_spec documents 1 (le_refl 1) hwf
  have hPair' : List.Pairwise
      (fun d1 d2 => ∀ x ∈ d1.objects, ∀ y ∈ d2.objects, idLt x.1 y.1)
      (preparedDocs documents) := by
    refine hPair.imp ?_
    intro d1 d2 h x hx y hy
    exact Or.inl (h x.1 (List.mem_map_of_mem (·.1) hx) y.1 (List.mem_map_of_mem (·.1) hy))
  unfold documentsObjects flatObjects
  have hres := foldl_btExtend_proj Document.objects (preparedDocs documents) []
    (fun a ha => (hEach a ha).1)
    (by simp)
    hPair'
  simpa using hres

theorem pageEntries_keys_subset (d : Document) :
    ∀ j ∈ btKeys (pageEntries d), j ∈ btKeys d.objects := by
  intro j hj
  unfold pageEntries btFromList at hj
  rcases (mem_btKeys_btExtend _ _ j).mp hj with hj | hj
  · simp [btKeys] at hj
  · simp only [btKeys, List.map_map] at hj
    have : j ∈ d.get_pages := by simpa using hj
    exact get_pages_subset_keys d j this

theorem pageEntries_sorted (d : Document) :
    List.Pairwise (fun x y => idLt x.1 y.1) (pageEntries d) :=
  btSorted_btFromList _

theorem pageEntries_mem (d : Document) :
    ∀ kv ∈ pageEntries d, kv.1 ∈ d.get_pages ∧
      ∃ pd, kv.2 = Object.dictionary pd ∧ dictTypeName pd = some "Page" ∧
        btGet d.objects kv.1 = some (.dictionary pd) := by
  intro kv hkv
  unfold pageEntries btFromList at hkv
  rcases mem_of_mem_btExtend hkv with hkv | hkv
  · simp at hkv
  · rw [List.mem_map] at hkv
    obtain ⟨id, hid, heq⟩ := hkv
    obtain ⟨pd, hget, htype⟩ := get_pages_mem d id hid
    refine ⟨heq ▸ hid, pd, ?_, htype, heq ▸ hget⟩
    rw [← heq]
    simp [hget]

theorem pageEntries_length (d : Document) (hnd : d.get_pages.Nodup) :
    (pageEntries d).length = d.get_pages.length := by
  unfold pageEntries btFromList
  rw [length_btExtend]
  · simp
  · have hmap : List.map (·.1)
        (d.get_pages.map (fun id => (id, (btGet d.objects id).getD Object.null)))
        = d.get_pages := by
      rw [List.map_map]
      have hfun : ((·.1) ∘ fun id => (id, (btGet d.objects id).getD Object.null))
          = fun (id : ObjectId) => id := by
        funext x
        rfl
      rw [hfun, List.map_id']
    rw [hmap]
    exact hnd
  · simp [btKeys]

theorem documentsPages_eq_flatten (documents : List Document) (hwf : AllWF documents) :
    documentsPages documents = ((preparedDocs documents).map pageEntries).flatten := by
  obtain ⟨hEach, hPair, -, -⟩ := renumberAll_spec documents 1 (le_refl 1) hwf
  have hPair' : List.Pairwise
      (fun d1 d2 => ∀ x ∈ pageEntries d1, ∀ y ∈ pageEntries d2, idLt x.1 y.1)
      (preparedDocs documents) := by
    refine hPair.imp ?_
    intro d1 d2 h x hx y hy
    exact Or.inl (h x.1 (pageEntries_keys_subset _ x.1 (List.mem_map_of_mem (·.1) hx))
      y.1 (pageEntries_keys_subset _ y.1 (List.mem_map_of_mem (·.1) hy)))
  unfold documentsPages
  have hres := foldl_btExtend_proj pageEntries (preparedDocs documents) []
    (fun a _ => pageEntries_sorted a)
    (by simp)
    hPair'
  simpa using hres

theorem optOr_none_right {α : Type} (a : Option α) : optOr a none = a := by
  cases a <;> rfl

theorem optOr_assoc {α : Type} (a b c : Option α) :
    optOr (optOr a b) c = optOr a (optOr b c) := by
  cases a <;> rfl

theorem classifyStep_catalog (acc : ClassifyAcc) (e : ObjectId × Object)
    (h : e.2.typeNameD = "Catalog") :
    classifyStep acc e =
      { acc with
        catalog_object := some
          ((match acc.catalog_object with
            | some (id, _) => id
            | none => e.1),
           e.2) } := by
  unfold classifyStep
  rw [h]
  rfl

theorem classifyStep_pages (acc : ClassifyAcc) (e : ObjectId × Object)
    (h : e.2.typeNameD = "Pages") :
    classifyStep acc e =
      match e.2.as_dict with
      | some dictionary =>
        { acc with
          pages_object := some
            ((match acc.pages_object with
              | some (id, _) => id
              | none => e.1),
             .dictionary
               (match acc.pages_object with
                | some (_, oldObject) =>
                  match oldObject.as_dict with
                  | some old_dictionary => dictExtend dictionary old_dictionary
                  | none => dictionary
                | none => dictionary)) }
      | none => acc := by
  unfold classifyStep
  rw [h]
  rfl

theorem classifyStep_skip (acc : ClassifyAcc) (e : ObjectId × Object)
    (h : e.2.typeNameD = "Page" ∨ e.2.typeNameD = "Outlines" ∨ e.2.typeNameD = "Outline") :
    classifyStep acc e = acc := by
  unfold classifyStep
  rcases h with h | h | h <;> (rw [h]; rfl)

theorem classifyStep_other (acc : ClassifyAcc) (e : ObjectId × Object)
    (h1 : e.2.typeNameD ≠ "Catalog") (h2 : e.2.typeNameD ≠ "Pages")
    (h3 : e.2.typeNameD ≠ "Page") (h4 : e.2.typeNameD ≠ "Outlines")
    (h5 : e.2.typeNameD ≠ "Outline") :
    classifyStep acc e = { acc with outObjects := btInsert acc.outObjects e.1 e.2 } := by
  unfold classifyStep
  split
  · rename_i heq
    exact absurd heq h1
  · rename_i heq
    exact absurd heq h2
  · rename_i heq
    exact absurd heq h3
  · rename_i heq
    exact absurd heq h4
  · rename_i heq
    exact absurd heq h5
  · rfl

theorem classifyStep_catalog_of_ne (acc : ClassifyAcc) (e : ObjectId × Object)
    (h : e.2.typeNameD ≠ "Catalog") :
    (classifyStep acc e).catalog_object = acc.catalog_object := by
  unfold classifyStep
  split
  · rename_i heq
    exact absurd heq h
  · split <;> rfl
  · rfl
  · rfl
  · rfl
  · rfl

theorem classifyStep_pages_of_ne (acc : ClassifyAcc) (e : ObjectId × Object)
    (h : e.2.typeNameD ≠ "Pages") :
    (classifyStep acc e).pages_object = acc.pages_object := by
  unfold classifyStep
  split
  · rfl
  · rename_i heq
    exact absurd heq h
  · rfl
  · rfl
  · rfl
  · rfl

theorem classifyStep_outObjects_cases (acc : ClassifyAcc) (e : ObjectId × Object) :
    (classifyStep acc e).outObjects = acc.outObjects ∨
    ((classifyStep acc e).outObjects = btInsert acc.outObjects e.1 e.2 ∧
      e.2.typeNameD ≠ "Catalog" ∧ e.2.typeNameD ≠ "Pages" ∧
      e.2.typeNameD ≠ "Page" ∧ e.2.typeNameD ≠ "Outlines" ∧ e.2.typeNameD ≠ "Outline") := by
  unfold classifyStep
  split
  · exact Or.inl rfl
  · split <;> exact Or.inl rfl
  · exact Or.inl rfl
  · exact Or.inl rfl
  · exact Or.inl rfl
  · rename_i h1 h2 h3 h4 h5
    exact Or.inr ⟨rfl, h1, h2, h3, h4, h5⟩

theorem classify_catalog_id (es : List (ObjectId × Object)) : ∀ acc : ClassifyAcc,
    (es.foldl classifyStep acc).catalog_object.map (·.1)
      = optOr (acc.catalog_object.map (·.1))
          ((es.find? (fun kv => kv.2.typeNameD == "Catalog")).map (·.1)) := by
  induction es with
  | nil =>
    intro acc
    simp [optOr_none_right]
  | cons e rest ih =>
    intro acc
    simp only [List.foldl_cons]
    by_cases hc : e.2.typeNameD = "Catalog"
    · rw [ih, classifyStep_catalog acc e hc,
        List.find?_cons_of_pos _ (by simp [hc])]
      cases hacc : acc.catalog_object with
      | none => simp [optOr]
      | some co => simp [optOr]
    · rw [ih, classifyStep_catalog_of_ne acc e hc,
        List.find?_cons_of_neg _ (by simp [hc])]

theorem classify_catalog_obj (es : List (ObjectId × Object)) : ∀ acc : ClassifyAcc,
    (es.foldl classifyStep acc).catalog_object.map (·.2)
      = es.foldl (fun st kv => if kv.2.typeNameD == "Catalog" then some kv.2 else st)
          (acc.catalog_object.map (·.2)) := by
  induction es with
  | nil =>
    intro acc
    rfl
  | cons e rest ih =>
    intro acc
    simp only [List.foldl_cons]
    by_cases hc : e.2.typeNameD = "Catalog"
    · rw [ih, classifyStep_catalog acc e hc, if_pos (by simp [hc])]
      cases hacc : acc.catalog_object with
      | none => simp
      | some co => simp
    · rw [ih, classifyStep_catalog_of_ne acc e hc, if_neg (by simp [hc])]

theorem foldLast_origin (t : String) (es : List (ObjectId × Object)) :
    ∀ (st : Option Object) (o : Object),
      es.foldl (fun st kv => if kv.2.typeNameD == t then some kv.2 else st) st = some o →
      st = some o ∨ ∃ kv ∈ es, kv.2 = o ∧ kv.2.typeNameD = t := by
  induction es with
  | nil =>
    intro st o h
    exact Or.inl h
  | cons e rest ih =>
    intro st o h
    simp only [List.foldl_cons] at h
    rcases ih _ o h with h' | ⟨kv, hkv, hv, ht⟩
    · by_cases hc : e.2.typeNameD = t
      · rw [if_pos (by simp [hc])] at h'
        injection h' with h'
        exact Or.inr ⟨e, List.mem_cons_self _ _, h', hc⟩
      · rw [if_neg (by simp [hc])] at h'
        exact Or.inl h'
    · exact Or.inr ⟨kv, List.mem_cons_of_mem _ hkv, hv, ht⟩

theorem classify_pages_id (es : List (ObjectId × Object)) : ∀ acc : ClassifyAcc,
    (es.foldl classifyStep acc).pages_object.map (·.1)
      = optOr (acc.pages_object.map (·.1))
          ((es.find? (fun kv => kv.2.typeNameD == "Pages" && kv.2.as_dict.isSome)).map (·.1)) := by
  induction es with
  | nil =>
    intro acc
    simp [optOr_none_right]
  | cons e rest ih =>
    intro acc
    simp only [List.foldl_cons]
    by_cases hp : e.2.typeNameD = "Pages"
    · cases hd : e.2.as_dict with
      | some dictionary =>
        rw [ih, classifyStep_pages acc e hp, hd,
          List.find?_cons_of_pos _ (by simp [hp, hd])]
        cases hacc : acc.pages_object with
        | none => simp [optOr]
        | some po => simp [optOr]
      | none =>
        rw [ih, classifyStep_pages acc e hp, hd,
          List.find?_cons_of_neg _ (by simp [hd])]
    · rw [ih, classifyStep_pages_of_ne acc e hp,
        List.find?_cons_of_neg _ (by simp [hp])]

theorem pagesDictsIn_cons_pages {e : ObjectId × Object} {dct : Dict}
    (hp : e.2.typeNameD = "Pages") (hd : e.2.as_dict = some dct)
    (rest : List (ObjectId × Object)) :
    pagesDictsIn (e :: rest) = dct :: pagesDictsIn rest := by
  unfold pagesDictsIn
  rw [List.filterMap_cons]
  rw [if_pos hp, hd]

theorem pagesDictsIn_cons_skip {e : ObjectId × Object}
    (h : e.2.typeNameD ≠ "Pages" ∨ e.2.as_dict = none)
    (rest : List (ObjectId × Object)) :
    pagesDictsIn (e :: rest) = pagesDictsIn rest := by
  unfold pagesDictsIn
  rw [List.filterMap_cons]
  rcases h with h | h
  · rw [if_neg h]
  · by_cases hp : e.2.typeNameD = "Pages"
    · rw [if_pos hp, h]
    · rw [if_neg hp]

theorem classify_pages_dict (es : List (ObjectId × Object)) : ∀ (acc : ClassifyAcc) (dct₀ : Dict),
    (∀ kv ∈ es, kv.2.typeNameD = "Pages" → (dictKeys ((kv.2.as_dict).getD [])).Nodup) →
    acc.pages_object.map (·.2) = some (.dictionary dct₀) →
    (dictKeys dct₀).Nodup →
    ∃ dct, (es.foldl classifyStep acc).pages_object.map (·.2) = some (.dictionary dct) ∧
      (dictKeys dct).Nodup ∧
      ∀ k, dictGet dct k = optOr (dictGet dct₀ k)
        ((pagesDictsIn es).findSome? (fun d => dictGet d k)) := by
  induction es with
  | nil =>
    intro acc dct₀ _ hacc hnd
    refine ⟨dct₀, hacc, hnd, ?_⟩
    intro k
    simp [pagesDictsIn, optOr_none_right]
  | cons e rest ih =>
    intro acc dct₀ hes hacc hnd
    obtain ⟨po, hpo⟩ : ∃ po, acc.pages_object = some po := by
      cases h : acc.pages_object with
      | none => rw [h] at hacc; simp at hacc
      | some po => exact ⟨po, rfl⟩
    have hpo2 : po.2 = .dictionary dct₀ := by
      rw [hpo] at hacc
      simpa using hacc
    have hesrest : ∀ kv ∈ rest, kv.2.typeNameD = "Pages" →
        (dictKeys ((kv.2.as_dict).getD [])).Nodup :=
      fun kv hkv => hes kv (List.mem_cons_of_mem _ hkv)
    simp only [List.foldl_cons]
    by_cases hp : e.2.typeNameD = "Pages"
    · cases hd : e.2.as_dict with
      | some dictionary =>
        have hDnd : (dictKeys dictionary).Nodup := by
          have := hes e (List.mem_cons_self _ _) hp
          rw [hd] at this
          simpa using this
        have hstep : (classifyStep acc e).pages_object
            = some (po.1, .dictionary (dictExtend dictionary dct₀)) := by
          rw [classifyStep_pages acc e hp, hd]
          simp only [hpo, hpo2]
          rfl
        have hstepmap : (classifyStep acc e).pages_object.map (·.2)
            = some (.dictionary (dictExtend dictionary dct₀)) := by
          rw [hstep]
          rfl
        obtain ⟨dct, hmap, hdnd, hget⟩ := ih (classifyStep acc e)
          (dictExtend dictionary dct₀) hesrest hstepmap
          (nodup_dictKeys_dictExtend dictionary dct₀ hDnd)
        refine ⟨dct, hmap, hdnd, ?_⟩
        intro k
        rw [hget k, dictGet_dictExtend dictionary dct₀ k hnd,
          pagesDictsIn_cons_pages hp hd, optOr_assoc]
        have : (pagesDictsIn (e :: rest)).findSome? (fun d => dictGet d k)
            = optOr (dictGet dictionary k)
                ((pagesDictsIn rest).findSome? (fun d => dictGet d k)) := by
          rw [pagesDictsIn_cons_pages hp hd]
          cases hh : dictGet dictionary k <;> simp [List.findSome?_cons, hh, optOr]
        rw [pagesDictsIn_cons_pages hp hd] at this
        rw [this]
      | none =>
        have hstep : classifyStep acc e = acc := by
          rw [classifyStep_pages acc e hp, hd]
        rw [hstep, pagesDictsIn_cons_skip (Or.inr hd)]
        exact ih acc dct₀ hesrest hacc hnd
    · have hstep : (classifyStep acc e).pages_object = acc.pages_object :=
        classifyStep_pages_of_ne acc e hp
      rw [pagesDictsIn_cons_skip (Or.inl hp)]
      obtain ⟨dct, hmap, hdnd, hget⟩ := ih (classifyStep acc e) dct₀ hesrest
        (by rw [hstep]; exact hacc) hnd
      exact ⟨dct, hmap, hdnd, hget⟩

theorem classify_pages_none (es : List (ObjectId × Object)) : ∀ acc : ClassifyAcc,
    (∀ kv ∈ es, kv.2.typeNameD = "Pages" → (dictKeys ((kv.2.as_dict).getD [])).Nodup) →
    acc.pages_object = none →
    ((es.foldl classifyStep acc).pages_object = none ∧ pagesDictsIn es = []) ∨
    (∃ pid dct, (es.foldl classifyStep acc).pages_object = some (pid, .dictionary dct) ∧
      (dictKeys dct).Nodup ∧ pagesDictsIn es ≠ [] ∧
      ∀ k, dictGet dct k = (pagesDictsIn es).findSome? (fun d => dictGet d k)) := by
  induction es with
  | nil =>
    intro acc _ hacc
    exact Or.inl ⟨hacc, rfl⟩
  | cons e rest ih =>
    intro acc hes hacc
    have hesrest : ∀ kv ∈ rest, kv.2.typeNameD = "Pages" →
        (dictKeys ((kv.2.as_dict).getD [])).Nodup :=
      fun kv hkv => hes kv (List.mem_cons_of_mem _ hkv)
    simp only [List.foldl_cons]
    by_cases hp : e.2.typeNameD = "Pages"
    · cases hd : e.2.as_dict with
      | some dictionary =>
        have hDnd : (dictKeys dictionary).Nodup := by
          have := hes e (List.mem_cons_self _ _) hp
          rw [hd] at this
          simpa using this
        have hstep : (classifyStep acc e).pages_object
            = some (e.1, .dictionary dictionary) := by
          rw [classifyStep_pages acc e hp, hd]
          simp only [hacc]
        have hstepmap : (classifyStep acc e).pages_object.map (·.2)
            = some (.dictionary dictionary) := by
          rw [hstep]
          rfl
        obtain ⟨dct, hmap, hdnd, hget⟩ := classify_pages_dict rest (classifyStep acc e)
          dictionary hesrest hstepmap hDnd
        obtain ⟨pid, hpid⟩ : ∃ pid,
            (rest.foldl classifyStep (classifyStep acc e)).pages_object
              = some (pid, .dictionary dct) := by
          cases hq : (rest.foldl classifyStep (classifyStep acc e)).pages_object with
          | none => rw [hq] at hmap; simp at hmap
          | some po =>
            obtain ⟨p1, p2⟩ := po
            rw [hq] at hmap
            have hpo2 : p2 = .dictionary dct := by simpa using hmap
            refine ⟨p1, ?_⟩
            rw [hpo2]
        refine Or.inr ⟨pid, dct, hpid, hdnd, ?_, ?_⟩
        · rw [pagesDictsIn_cons_pages hp hd]
          simp
        · intro k
          rw [hget k, pagesDictsIn_cons_pages hp hd]
          cases hh : dictGet dictionary k <;> simp [List.findSome?_cons, hh, optOr]
      | none =>
        have hstep : classifyStep acc e = acc := by
          rw [classifyStep_pages acc e hp, hd]
        rw [hstep, pagesDictsIn_cons_skip (Or.inr hd)]
        exact ih acc hesrest hacc
    · have hstep : (classifyStep acc e).pages_object = acc.pages_object :=
        classifyStep_pages_of_ne acc e hp
      rw [pagesDictsIn_cons_skip (Or.inl hp)]
      exact ih (classifyStep acc e) hesrest (hstep.trans hacc)

theorem classify_outObjects (es : List (ObjectId × Object)) : ∀ acc : ClassifyAcc,
    (BtSorted acc.outObjects → BtSorted ((es.foldl classifyStep acc).outObjects)) ∧
    (∀ x ∈ (es.foldl classifyStep acc).outObjects,
      x ∈ acc.outObjects ∨ (x ∈ es ∧ x.2.typeNameD ≠ "Catalog" ∧ x.2.typeNameD ≠ "Pages" ∧
        x.2.typeNameD ≠ "Page" ∧ x.2.typeNameD ≠ "Outlines" ∧ x.2.typeNameD ≠ "Outline")) := by
  induction es with
  | nil =>
    intro acc
    exact ⟨fun h => h, fun x hx => Or.inl hx⟩
  | cons e rest ih =>
    intro acc
    simp only [List.foldl_cons]
    obtain ⟨ihSort, ihMem⟩ := ih (classifyStep acc e)
    rcases classifyStep_outObjects_cases acc e with hcase | ⟨hcase, h1, h2, h3, h4, h5⟩
    · constructor
      · intro hs
        exact ihSort (hcase ▸ hs)
      · intro x hx
        rcases ihMem x hx with hx' | ⟨hx', hts⟩
        · exact Or.inl (hcase ▸ hx')
        · exact Or.inr ⟨List.mem_cons_of_mem _ hx', hts⟩
    · constructor
      · intro hs
        refine ihSort ?_
        rw [hcase]
        exact btSorted_btInsert _ _ hs
      · intro x hx
        rcases ihMem x hx with hx' | ⟨hx', hts⟩
        · rw [hcase] at hx'
          rcases mem_of_mem_btInsert hx' with hx'' | hx''
          · subst hx''
            exact Or.inr ⟨List.mem_cons.mpr (Or.inl rfl), h1, h2, h3, h4, h5⟩
          · exact Or.inl hx''
        · exact Or.inr ⟨List.mem_cons_of_mem _ hx', hts⟩

theorem merge_ok_inv {ds : List Document} {d : Document}
    (h : merge_documents_to ds = MergeOutcome.ok d) :
    ∃ po co,
      (classifyAll ds).pages_object = some po ∧
      (classifyAll ds).catalog_object = some co ∧
      d = { version := "1.5",
            trailer := [("Root", .reference co.1)],
            objects := mergeObjs3 ds po co,
            max_id := (mergeObjs3 ds po co).length } := by
  simp only [merge_documents_to] at h
  split at h
  · exact absurd h (by simp)
  · rename_i po hpo
    split at h
    · exact absurd h (by simp)
    · rename_i co hco
      injection h with h
      exact ⟨po, co, hpo, hco, h.symm⟩

theorem mergeOk_iff (ds : List Document) :
    mergeOk ds = true ↔ ∃ d, merge_documents_to ds = MergeOutcome.ok d := by
  unfold mergeOk mergedDoc
  cases h : merge_documents_to ds <;> simp

theorem classifyAll_pages (ds : List Document) (hes : PagesDictsKeysNodup ds) :
    ((classifyAll ds).pages_object = none ∧ pagesDictsIn (documentsObjects ds) = []) ∨
    (∃ pid dct, (classifyAll ds).pages_object = some (pid, .dictionary dct) ∧
      (dictKeys dct).Nodup ∧ pagesDictsIn (documentsObjects ds) ≠ [] ∧
      ∀ k, dictGet dct k
        = (pagesDictsIn (documentsObjects ds)).findSome? (fun d => dictGet d k)) :=
  classify_pages_none (documentsObjects ds) ⟨none, none, []⟩ hes rfl

theorem type_name_of_typeNameD {o : Object} {t : String} (ht : t ≠ "") (h : o.typeNameD = t) :
    o.type_name = some t := by
  unfold Object.typeNameD at h
  cases ho : o.type_name with
  | none =>
    rw [ho] at h
    simp only [Option.getD_none] at h
    exact absurd h.symm ht
  | some s =>
    rw [ho] at h
    simp only [Option.getD_some] at h
    rw [h]

theorem pagesDictsIn_typed (es : List (ObjectId × Object)) :
    ∀ dct ∈ pagesDictsIn es, dictTypeName dct = some "Pages" := by
  intro dct hdct
  unfold pagesDictsIn at hdct
  rw [List.mem_filterMap] at hdct
  obtain ⟨kv, _, hkv⟩ := hdct
  by_cases hp : kv.2.typeNameD = "Pages"
  · rw [if_pos hp] at hkv
    cases ho : kv.2 with
    | dictionary dd =>
      rw [ho] at hkv
      have hdd : dd = dct := by simpa [Object.as_dict] using hkv
      subst hdd
      have h2 : (Object.dictionary dd).type_name = some "Pages" :=
        type_name_of_typeNameD (by simp) (ho ▸ hp)
      simpa [Object.type_name] using h2
    | null => rw [ho] at hkv; simp [Object.as_dict] at hkv
    | boolean b => rw [ho] at hkv; simp [Object.as_dict] at hkv
    | integer i => rw [ho] at hkv; simp [Object.as_dict] at hkv
    | real p => rw [ho] at hkv; simp [Object.as_dict] at hkv
    | name s => rw [ho] at hkv; simp [Object.as_dict] at hkv
    | str s => rw [ho] at hkv; simp [Object.as_dict] at hkv
    | array xs => rw [ho] at hkv; simp [Object.as_dict] at hkv
    | stream sd sc => rw [ho] at hkv; simp [Object.as_dict] at hkv
    | reference r => rw [ho] at hkv; simp [Object.as_dict] at hkv
  · rw [if_neg hp] at hkv
    exact absurd hkv (by simp)

theorem rootPages_dict_type {ds : List Document} {pid : ObjectId} {dct : Dict}
    (hes : PagesDictsKeysNodup ds)
    (h : (classifyAll ds).pages_object = some (pid, .dictionary dct)) :
    dictTypeName dct = some "Pages" := by
  rcases classifyAll_pages ds hes with ⟨hnone, -⟩ | ⟨pid', dct', hsome, -, hne, hget⟩
  · rw [h] at hnone
    simp at hnone
  · rw [h] at hsome
    have hdct : dct = dct' := by
      have h1 : Object.dictionary dct = Object.dictionary dct' := by
        have := congrArg (fun x => x.map (·.2)) hsome
        simpa using this
      injection h1
    subst hdct
    cases hl : pagesDictsIn (documentsObjects ds) with
    | nil => exact absurd hl hne
    | cons d1 rest =>
      have htyped : dictTypeName d1 = some "Pages" :=
        pagesDictsIn_typed _ d1 (by rw [hl]; exact List.mem_cons_self _ _)
      have hg := hget "Type"
      rw [hl] at hg
      unfold dictTypeName at htyped ⊢
      cases hd1 : dictGet d1 "Type" with
      | none => rw [hd1] at htyped; simp at htyped
      | some v =>
        rw [hd1] at htyped
        rw [hg, List.findSome?_cons, hd1]
        exact htyped

theorem designatedCatalogId_eq_first (ds : List Document) :
    designatedCatalogId ds = firstTypedId ds "Catalog" := by
  unfold designatedCatalogId firstTypedId classifyAll
  have h := classify_catalog_id (documentsObjects ds) ⟨none, none, []⟩
  simpa [optOr] using h

theorem designatedCatalogObj_eq_last (ds : List Document) :
    designatedCatalogObj ds = lastTypedObj ds "Catalog" := by
  unfold designatedCatalogObj lastTypedObj classifyAll
  have h := classify_catalog_obj (documentsObjects ds) ⟨none, none, []⟩
  simpa using h

theorem designatedPagesId_origin (ds : List Document) {pid : ObjectId}
    (h : designatedPagesId ds = some pid) :
    ∃ obj, (pid, obj) ∈ documentsObjects ds ∧ obj.typeNameD = "Pages" := by
  unfold designatedPagesId classifyAll at h
  rw [classify_pages_id (documentsObjects ds) ⟨none, none, []⟩] at h
  rw [show (Option.map (fun x : ObjectId × Object => x.1) none) = none from rfl] at h
  rw [show ∀ b : Option ObjectId, optOr none b = b from fun b => rfl] at h
  rw [Option.map_eq_some'] at h
  obtain ⟨kv, hfind, hkv1⟩ := h
  have hmem := List.mem_of_find?_eq_some hfind
  have hpred := List.find?_some hfind
  simp only [Bool.and_eq_true, beq_iff_eq] at hpred
  refine ⟨kv.2, ?_, hpred.1⟩
  rw [← hkv1]
  exact hmem

theorem designatedCatalogId_origin (ds : List Document) {cid : ObjectId}
    (h : designatedCatalogId ds = some cid) :
    ∃ obj, (cid, obj) ∈ documentsObjects ds ∧ obj.typeNameD = "Catalog" := by
  unfold designatedCatalogId classifyAll at h
  rw [classify_catalog_id (documentsObjects ds) ⟨none, none, []⟩] at h
  rw [show (Option.map (fun x : ObjectId × Object => x.1) none) = none from rfl] at h
  rw [show ∀ b : Option ObjectId, optOr none b = b from fun b => rfl] at h
  rw [Option.map_eq_some'] at h
  obtain ⟨kv, hfind, hkv1⟩ := h
  have hmem := List.mem_of_find?_eq_some hfind
  have hpred := List.find?_some hfind
  simp only [beq_iff_eq] at hpred
  refine ⟨kv.2, ?_, hpred⟩
  rw [← hkv1]
  exact hmem

theorem designatedCatalogObj_origin (ds : List Document) {o : Object}
    (h : designatedCatalogObj ds = some o) :
    ∃ kv ∈ documentsObjects ds, kv.2 = o ∧ kv.2.typeNameD = "Catalog" := by
  rw [designatedCatalogObj_eq_last] at h
  unfold lastTypedObj at h
  rcases foldLast_origin "Catalog" (documentsObjects ds) none o h with h' | h'
  · simp at h'
  · exact h'

theorem classifyAll_catalog_none_iff (ds : List Document) :
    (classifyAll ds).catalog_object = none ↔
      ∀ kv ∈ documentsObjects ds, kv.2.typeNameD ≠ "Catalog" := by
  have h := classify_catalog_id (documentsObjects ds) ⟨none, none, []⟩
  rw [show (documentsObjects ds).foldl classifyStep ⟨none, none, []⟩ = classifyAll ds from rfl,
    show (Option.map (fun x : ObjectId × Object => x.1) none) = none from rfl,
    show ∀ b : Option ObjectId, optOr none b = b from fun b => rfl] at h
  constructor
  · intro hn
    rw [hn] at h
    rw [show (Option.map (fun x : ObjectId × Object => x.1) none) = none from rfl] at h
    have hfind : (documentsObjects ds).find? (fun kv => kv.2.typeNameD == "Catalog") = none :=
      Option.map_eq_none'.mp h.symm
    intro kv hkv hc
    have hp := List.find?_eq_none.mp hfind kv hkv
    rw [hc] at hp
    simp at hp
  · intro hall
    have hfind : (documentsObjects ds).find? (fun kv => kv.2.typeNameD == "Catalog") = none :=
      List.find?_eq_none.mpr (fun kv hkv => by simp [hall kv hkv])
    rw [hfind] at h
    rw [show (Option.map (fun x : ObjectId × Object => x.1) (none : Option (ObjectId × Object)))
        = none from rfl] at h
    exact Option.map_eq_none'.mp h

theorem classifyAll_pages_none_iff (ds : List Document) :
    (classifyAll ds).pages_object = none ↔
      ∀ kv ∈ documentsObjects ds,
        ¬(kv.2.typeNameD = "Pages" ∧ (kv.2.as_dict).isSome = true) := by
  have h := classify_pages_id (documentsObjects ds) ⟨none, none, []⟩
  rw [show (documentsObjects ds).foldl classifyStep ⟨none, none, []⟩ = classifyAll ds from rfl,
    show (Option.map (fun x : ObjectId × Object => x.1) none) = none from rfl,
    show ∀ b : Option ObjectId, optOr none b = b from fun b => rfl] at h
  constructor
  · intro hn
    rw [hn] at h
    rw [show (Option.map (fun x : ObjectId × Object => x.1) none) = none from rfl] at h
    have hfind := Option.map_eq_none'.mp h.symm
    intro kv hkv hc
    have hp := List.find?_eq_none.mp hfind kv hkv
    simp only [Bool.and_eq_true, beq_iff_eq] at hp
    exact hp ⟨hc.1, hc.2⟩
  · intro hall
    have hfind : (documentsObjects ds).find?
        (fun kv => kv.2.typeNameD == "Pages" && kv.2.as_dict.isSome) = none :=
      List.find?_eq_none.mpr (fun kv hkv => by
        have := hall kv hkv
        simp only [Bool.and_eq_true, beq_iff_eq]
        tauto)
    rw [hfind] at h
    rw [show (Option.map (fun x : ObjectId × Object => x.1) (none : Option (ObjectId × Object)))
        = none from rfl] at h
    exact Option.map_eq_none'.mp h

theorem classify_pages_isdict (es : List (ObjectId × Object)) : ∀ acc : ClassifyAcc,
    (∀ po', acc.pages_object = some po' → ∃ dct, po'.2 = Object.dictionary dct) →
    ∀ po, (es.foldl classifyStep acc).pages_object = some po →
      ∃ dct, po.2 = Object.dictionary dct := by
  induction es with
  | nil =>
    intro acc hacc po h
    exact hacc po h
  | cons e rest ih =>
    intro acc hacc po h
    simp only [List.foldl_cons] at h
    refine ih (classifyStep acc e) ?_ po h
    intro po' hpo'
    by_cases hp : e.2.typeNameD = "Pages"
    · rw [classifyStep_pages acc e hp] at hpo'
      cases hd : e.2.as_dict with
      | some dictionary =>
        rw [hd] at hpo'
        simp only at hpo'
        injection hpo' with hpo'
        exact ⟨_, congrArg Prod.snd hpo'.symm⟩
      | none =>
        rw [hd] at hpo'
        exact hacc po' hpo'
    · rw [classifyStep_pages_of_ne acc e hp] at hpo'
      exact hacc po' hpo'

theorem sorted_foldl_btExtend {α : Type} (f : α → BtMap) (l : List α) :
    ∀ m, BtSorted m → BtSorted (l.foldl (fun acc a => btExtend acc (f a)) m) := by
  induction l with
  | nil => exact fun m h => h
  | cons a rest ih =>
    intro m hm
    simp only [List.foldl_cons]
    exact ih _ (btSorted_btExtend _ hm)

theorem documentsObjects_sorted (ds : List Document) : BtSorted (documentsObjects ds) :=
  sorted_foldl_btExtend Document.objects (preparedDocs ds) [] (by simp [BtSorted])

theorem documentsPages_sorted (ds : List Document) : BtSorted (documentsPages ds) :=
  sorted_foldl_btExtend pageEntries (preparedDocs ds) [] (by simp [BtSorted])

theorem btKeys_nodup_of_sorted {m : BtMap} (h : BtSorted m) : (btKeys m).Nodup := by
  have hp : List.Pairwise idLt (btKeys m) := by
    rw [btKeys, List.pairwise_map]
    exact h
  exact hp.imp (fun hlt => idLt_ne hlt)

theorem mem_eq_of_keys_nodup {m : BtMap} {k : ObjectId} {a b : Object}
    (hnd : (btKeys m).Nodup) (ha : (k, a) ∈ m) (hb : (k, b) ∈ m) : a = b := by
  induction m with
  | nil => simp at ha
  | cons kv rest ih =>
    simp only [btKeys, List.map_cons, List.nodup_cons] at hnd
    rcases List.mem_cons.mp ha with ha' | ha' <;> rcases List.mem_cons.mp hb with hb' | hb'
    · exact congrArg Prod.snd (ha'.trans hb'.symm)
    · exfalso
      apply hnd.1
      rw [show kv.1 = k from congrArg Prod.fst ha'.symm]
      exact List.mem_map_of_mem (·.1) hb'
    · exfalso
      apply hnd.1
      rw [show kv.1 = k from congrArg Prod.fst hb'.symm]
      exact List.mem_map_of_mem (·.1) ha'
    · exact ih (by simpa [btKeys] using hnd.2) ha' hb'

theorem mem_foldl_btExtend_proj {α : Type} (f : α → BtMap) (l : List α) :
    ∀ (m : BtMap) (x : ObjectId × Object),
      x ∈ l.foldl (fun acc a => btExtend acc (f a)) m → x ∈ m ∨ ∃ a ∈ l, x ∈ f a := by
  induction l with
  | nil => exact fun m x h => Or.inl h
  | cons a rest ih =>
    intro m x h
    simp only [List.foldl_cons] at h
    rcases ih _ x h with h' | ⟨b, hb, hx⟩
    · rcases mem_of_mem_btExtend h' with h'' | h''
      · exact Or.inl h''
      · exact Or.inr ⟨a, List.mem_cons_self _ _, h''⟩
    · exact Or.inr ⟨b, List.mem_cons_of_mem _ hb, hx⟩

theorem mem_documentsObjects (ds : List Document) :
    ∀ x ∈ documentsObjects ds, ∃ d' ∈ preparedDocs ds, x ∈ d'.objects := by
  intro x hx
  unfold documentsObjects at hx
  rcases mem_foldl_btExtend_proj Document.objects (preparedDocs ds) [] x hx with h | h
  · simp at h
  · exact h

theorem mem_documentsPages (ds : List Document) :
    ∀ x ∈ documentsPages ds, ∃ d' ∈ preparedDocs ds, x ∈ pageEntries d' := by
  intro x hx
  unfold documentsPages at hx
  rcases mem_foldl_btExtend_proj pageEntries (preparedDocs ds) [] x hx with h | h
  · simp at h
  · exact h

theorem mem_preparedDocs (ds : List Document) :
    ∀ d' ∈ preparedDocs ds, ∃ d ∈ ds, ∃ s, d' = d.renumber_objects_with s := by
  suffices hgen : ∀ (l : List Document) (s : Nat), ∀ d' ∈ (renumberAll l s).1,
      ∃ d ∈ l, ∃ s', d' = d.renumber_objects_with s' by
    intro d' hd'
    exact hgen ds 1 d' hd'
  intro l
  induction l with
  | nil =>
    intro s d' hd'
    simp [renumberAll] at hd'
  | cons d rest ih =>
    intro s d' hd'
    rw [renumberAll_cons] at hd'
    rcases List.mem_cons.mp hd' with hd' | hd'
    · exact ⟨d, List.mem_cons_self _ _, s, hd'⟩
    · obtain ⟨d0, hd0, s', heq⟩ := ih _ d' hd'
      exact ⟨d0, List.mem_cons_of_mem _ hd0, s', heq⟩

theorem preparedDocs_of_mem (ds : List Document) :
    ∀ d ∈ ds, ∃ s, (d.renumber_objects_with s) ∈ preparedDocs ds := by
  suffices hgen : ∀ (l : List Document) (s : Nat), ∀ d ∈ l,
      ∃ s', (d.renumber_objects_with s') ∈ (renumberAll l s).1 by
    intro d hd
    exact hgen ds 1 d hd
  intro l
  induction l with
  | nil =>
    intro s d hd
    simp at hd
  | cons d0 rest ih =>
    intro s d hd
    rw [renumberAll_cons]
    rcases List.mem_cons.mp hd with hd | hd
    · subst hd
      exact ⟨s, List.mem_cons_self _ _⟩
    · obtain ⟨s', hs'⟩ := ih _ d hd
      exact ⟨s', List.mem_cons_of_mem _ hs'⟩

theorem as_dict_some {o : Object} {d : Dict} (h : o.as_dict = some d) :
    o = Object.dictionary d := by
  cases o <;> simp [Object.as_dict] at h ⊢
  exact h

theorem classifyAll_out_sorted (ds : List Document) :
    BtSorted (classifyAll ds).outObjects :=
  (classify_outObjects (documentsObjects ds) ⟨none, none, []⟩).1 (by simp [BtSorted])

theorem mem_mergeObjs1 (ds : List Document) (pid : ObjectId) :
    ∀ x ∈ mergeObjs1 ds pid,
      x ∈ (classifyAll ds).outObjects ∨
      ∃ entry ∈ documentsPages ds, ∃ pd, entry.2 = Object.dictionary pd ∧
        x = (entry.1, Object.dictionary (dictSet pd "Parent" (.reference pid))) := by
  unfold mergeObjs1
  suffices hgen : ∀ (l : List (ObjectId × Object)) (m : BtMap) (x : ObjectId × Object),
      x ∈ l.foldl (fun m entry =>
        match entry.2.as_dict with
        | some dictionary =>
          btInsert m entry.1 (.dictionary (dictSet dictionary "Parent" (.reference pid)))
        | none => m) m →
      x ∈ m ∨ ∃ entry ∈ l, ∃ pd, entry.2 = Object.dictionary pd ∧
        x = (entry.1, Object.dictionary (dictSet pd "Parent" (.reference pid))) by
    intro x hx
    exact hgen _ _ x hx
  intro l
  induction l with
  | nil => exact fun m x h => Or.inl h
  | cons e rest ih =>
    intro m x h
    simp only [List.foldl_cons] at h
    rcases ih _ x h with h' | ⟨entry, he, pd, hpd, hx⟩
    · cases hd : e.2.as_dict with
      | some dictionary =>
        rw [hd] at h'
        rcases mem_of_mem_btInsert h' with h'' | h''
        · exact Or.inr ⟨e, List.mem_cons_self _ _, dictionary, as_dict_some hd, h''⟩
        · exact Or.inl h''
      | none =>
        rw [hd] at h'
        exact Or.inl h'
    · exact Or.inr ⟨entry, List.mem_cons_of_mem _ he, pd, hpd, hx⟩

theorem mergeObjs1_sorted (ds : List Document) (pid : ObjectId) :
    BtSorted (mergeObjs1 ds pid) := by
  unfold mergeObjs1
  suffices hgen : ∀ (l : List (ObjectId × Object)) (m : BtMap), BtSorted m →
      BtSorted (l.foldl (fun m entry =>
        match entry.2.as_dict with
        | some dictionary =>
          btInsert m entry.1 (.dictionary (dictSet dictionary "Parent" (.reference pid)))
        | none => m) m) by
    exact hgen _ _ (classifyAll_out_sorted ds)
  intro l
  induction l with
  | nil => exact fun m h => h
  | cons e rest ih =>
    intro m hm
    simp only [List.foldl_cons]
    cases hd : e.2.as_dict with
    | some dictionary =>
      refine ih _ ?_
      exact btSorted_btInsert _ _ hm
    | none => exact ih _ hm

theorem mergeObjs2_sorted (ds : List Document) (po : ObjectId × Object) :
    BtSorted (mergeObjs2 ds po) := by
  unfold mergeObjs2
  cases po.2.as_dict with
  | some dictionary => exact btSorted_btInsert _ _ (mergeObjs1_sorted ds po.1)
  | none => exact mergeObjs1_sorted ds po.1

theorem mergeObjs3_sorted (ds : List Document) (po co : ObjectId × Object) :
    BtSorted (mergeObjs3 ds po co) := by
  unfold mergeObjs3
  cases co.2.as_dict with
  | some dictionary => exact btSorted_btInsert _ _ (mergeObjs2_sorted ds po)
  | none => exact mergeObjs2_sorted ds po

theorem btGet_mergeObjs2_self (ds : List Document) (po : ObjectId × Object) {pdct : Dict}
    (h : po.2.as_dict = some pdct) :
    btGet (mergeObjs2 ds po) po.1
      = some (.dictionary
          (dictSet (dictSet pdct "Count" (.integer (documentsPages ds).length))
            "Kids" (.array ((documentsPages ds).map (fun p => .reference p.1))))) := by
  unfold mergeObjs2
  rw [h]
  exact btGet_btInsert_self _ _ _

theorem btGet_mergeObjs3_ne (ds : List Document) (po co : ObjectId × Object)
    {j : ObjectId} (h : j ≠ co.1) :
    btGet (mergeObjs3 ds po co) j = btGet (mergeObjs2 ds po) j := by
  unfold mergeObjs3
  cases co.2.as_dict with
  | some dictionary => exact btGet_btInsert_ne _ _ h
  | none => rfl

theorem btGet_mergeObjs3_self (ds : List Document) (po co : ObjectId × Object) {cdct : Dict}
    (h : co.2.as_dict = some cdct) :
    btGet (mergeObjs3 ds po co) co.1
      = some (.dictionary
          (dictRemove (dictSet cdct "Pages" (.reference po.1)) "Outlines")) := by
  unfold mergeObjs3
  rw [h]
  exact btGet_btInsert_self _ _ _

theorem classifyAll_pages_isdict (ds : List Document) {po : ObjectId × Object}
    (h : (classifyAll ds).pages_object = some po) :
    ∃ pdct, po.2 = Object.dictionary pdct :=
  classify_pages_isdict (documentsObjects ds) ⟨none, none, []⟩ (by simp) po h

theorem pages_ne_catalog_id (ds : List Document) {po co : ObjectId × Object}
    (hpo : (classifyAll ds).pages_object = some po)
    (hco : (classifyAll ds).catalog_object = some co) :
    po.1 ≠ co.1 := by
  intro heq
  obtain ⟨objP, hmemP, htP⟩ := designatedPagesId_origin ds
    (show designatedPagesId ds = some po.1 by unfold designatedPagesId; rw [hpo]; rfl)
  obtain ⟨objC, hmemC, htC⟩ := designatedCatalogId_origin ds
    (show designatedCatalogId ds = some co.1 by unfold designatedCatalogId; rw [hco]; rfl)
  have hnd := btKeys_nodup_of_sorted (documentsObjects_sorted ds)
  have hPC := mem_eq_of_keys_nodup hnd hmemP (heq ▸ hmemC)
  rw [← hPC] at htC
  rw [htP] at htC
  exact absurd htC (by decide)

theorem catalog_obj_typed (ds : List Document) {co : ObjectId × Object}
    (hco : (classifyAll ds).catalog_object = some co) :
    co.2.typeNameD = "Catalog" := by
  obtain ⟨kv, hkv, hveq, ht⟩ := designatedCatalogObj_origin ds
    (show designatedCatalogObj ds = some co.2 by unfold designatedCatalogObj; rw [hco]; rfl)
  rw [← hveq]
  exact ht

theorem catalog_obj_dict (ds : List Document) {co : ObjectId × Object}
    (hcd : CatalogObjectsAreDicts ds)
    (hco : (classifyAll ds).catalog_object = some co) :
    ∃ cdct, co.2 = Object.dictionary cdct := by
  obtain ⟨kv, hkv, hveq, ht⟩ := designatedCatalogObj_origin ds
    (show designatedCatalogObj ds = some co.2 by unfold designatedCatalogObj; rw [hco]; rfl)
  obtain ⟨d', hd', hkvmem⟩ := mem_documentsObjects ds kv hkv
  obtain ⟨d, hd, s, heq⟩ := mem_preparedDocs ds d' hd'
  subst heq
  obtain ⟨kv0, hkv0, hkveq⟩ := mem_renumber_entries hkvmem
  have ht0 : kv0.2.typeNameD = "Catalog" := by
    have : kv.2.typeNameD = kv0.2.typeNameD := by
      rw [hkveq]
      exact typeNameD_substObj _ _
    rw [← this]
    exact ht
  have hds : (kv0.2.as_dict).isSome = true := hcd d hd kv0 hkv0 ht0
  obtain ⟨dd, hdd⟩ : ∃ dd, kv0.2.as_dict = some dd := by
    cases h : kv0.2.as_dict with
    | none => rw [h] at hds; simp at hds
    | some dd => exact ⟨dd, rfl⟩
  refine ⟨substDict (replFor d.objects s) dd, ?_⟩
  rw [← hveq, hkveq]
  simp only
  rw [as_dict_some hdd]
  rfl

theorem documentsPages_length (ds : List Document)
    (hwf : AllWF ds) (hnd : HarvestNodup ds) :
    (documentsPages ds).length = totalLeafPages ds := by
  rw [documentsPages_eq_flatten ds hwf]
  rw [List.length_flatten, List.map_map]
  unfold totalLeafPages
  congr 1
  apply List.map_congr_left
  intro d' hd'
  exact pageEntries_length d' (hnd d' hd')

theorem mergedDoc_of_ok {ds : List Document} {d : Document}
    (h : merge_documents_to ds = MergeOutcome.ok d) : mergedDoc ds = some d := by
  unfold mergedDoc
  rw [h]

theorem lookupMerged_eq {ds : List Document} {d : Document}
    (hd : merge_documents_to ds = MergeOutcome.ok d) (id : ObjectId) :
    lookupMerged ds id = btGet d.objects id := by
  unfold lookupMerged
  rw [mergedDoc_of_ok hd]
  rfl

theorem rootPagesDict_eq {ds : List Document} {d : Document} {po co : ObjectId × Object}
    {pdct : Dict}
    (hd : merge_documents_to ds = MergeOutcome.ok d)
    (hpo : (classifyAll ds).pages_object = some po)
    (hco : (classifyAll ds).catalog_object = some co)
    (hpad : po.2.as_dict = some pdct) :
    rootPagesDict ds
      = some (dictSet (dictSet pdct "Count" (.integer (documentsPages ds).length))
          "Kids" (.array ((documentsPages ds).map (fun p => .reference p.1)))) := by
  obtain ⟨po', co', hpo', hco', hdoc⟩ := merge_ok_inv hd
  rw [hpo] at hpo'
  rw [hco] at hco'
  injection hpo' with hpo'
  injection hco' with hco'
  subst hpo'
  subst hco'
  have hobj : d.objects = mergeObjs3 ds po co := by rw [hdoc]
  have hdesig : designatedPagesId ds = some po.1 := by
    unfold designatedPagesId
    rw [hpo]
    rfl
  unfold rootPagesDict
  rw [hdesig]
  show dictAt ds po.1 = _
  unfold dictAt
  rw [lookupMerged_eq hd, hobj,
    btGet_mergeObjs3_ne ds po co (pages_ne_catalog_id ds hpo hco),
    btGet_mergeObjs2_self ds po hpad]
  rfl

/-- C1: on every well-formed input on which the merge succeeds, the rebuilt
root Pages dictionary's "Count" field and the length of its "Kids" array
both equal the number of harvested Page objects across all inputs, which is
the sum of the (renumbered) input documents' leaf-page counts. -/
theorem merged_page_count_preserved (ds : List Document)
    (hwf : AllWF ds) (hnd : HarvestNodup ds) (hok : mergeOk ds = true) :
    rootCountField ds = some ((totalLeafPages ds : Nat) : Int) ∧
    rootKidsLen ds = some (totalLeafPages ds) := by
  obtain ⟨d, hd⟩ := (mergeOk_iff ds).mp hok
  obtain ⟨po, co, hpo, hco, hdoc⟩ := merge_ok_inv hd
  obtain ⟨pdct, hpdct⟩ := classifyAll_pages_isdict ds hpo
  have hpad : po.2.as_dict = some pdct := by rw [hpdct]; rfl
  have hrpd := rootPagesDict_eq hd hpo hco hpad
  have hlen := documentsPages_length ds hwf hnd
  constructor
  · unfold rootCountField
    rw [hrpd]
    dsimp only
    rw [dictGet_dictSet_ne _ _ (by decide : ("Count" : String) ≠ "Kids"),
      dictGet_dictSet_self]
    dsimp only
    rw [hlen]
  · unfold rootKidsLen
    rw [hrpd]
    dsimp only
    rw [dictGet_dictSet_self]
    dsimp only
    simp only [List.length_map]
    rw [hlen]

/-- C1 witness: the merge of the two example documents (2 pages and
3 pages) yields Count 5 and a 5-element Kids array. -/
theorem merged_page_count_preserved_witness :
    AllWF [docA, docB] ∧ HarvestNodup [docA, docB] ∧ mergeOk [docA, docB] = true ∧
    (rootCountField [docA, docB] = some ((totalLeafPages [docA, docB] : Nat) : Int) ∧
      rootKidsLen [docA, docB] = some (totalLeafPages [docA, docB])) :=
  ⟨by decide, by decide, by decide,
    merged_page_count_preserved [docA, docB] (by decide) (by decide) (by decide)⟩

/-- C10: every successful merge produces its output via
`Document::with_version("1.5")`, so the merged document's PDF version is
"1.5" regardless of the input versions. -/
theorem merged_version_is_1_5 (ds : List Document) (hok : mergeOk ds = true) :
    mergedVersion ds = some "1.5" := by
  obtain ⟨d, hd⟩ := (mergeOk_iff ds).mp hok
  obtain ⟨po, co, hpo, hco, hdoc⟩ := merge_ok_inv hd
  unfold mergedVersion
  rw [mergedDoc_of_ok hd, hdoc]
  rfl

/-- C10 witness: the merge of the example documents (versions "1.3" and
"1.4") yields version "1.5". -/
theorem merged_version_is_1_5_witness :
    mergeOk [docA, docB] = true ∧ mergedVersion [docA, docB] = some "1.5" :=
  ⟨by decide, merged_version_is_1_5 [docA, docB] (by decide)⟩

/-- C9 counterexample: on the empty input sequence the top-level merge does
NOT fail with an error condition: the call resolves with an (empty) output
buffer, so no explicit empty-input error exists. -/
theorem empty_input_no_error_counterexample :
    (merge_documents []).isError = false ∧ merge_documents [] = NapiResult.buffer none :=
  ⟨rfl, rfl⟩

/-- C9 amended: the empty input sequence is not recognized as a distinct
error condition; it falls into the missing-pages-root early return ("Pages
root not found." is printed) and the caller receives an empty buffer, not
an error. -/
theorem empty_input_missing_pages_path :
    merge_documents_to [] = MergeOutcome.missingPagesRoot ∧
    merge_documents [] = NapiResult.buffer none :=
  ⟨rfl, rfl⟩

theorem merge_missing_pages {ds : List Document}
    (h : (classifyAll ds).pages_object = none) :
    merge_documents_to ds = MergeOutcome.missingPagesRoot := by
  simp only [merge_documents_to, h]

theorem merge_missing_catalog {ds : List Document} {po : ObjectId × Object}
    (hp : (classifyAll ds).pages_object = some po)
    (h : (classifyAll ds).catalog_object = none) :
    merge_documents_to ds = MergeOutcome.missingCatalogRoot := by
  simp only [merge_documents_to, hp, h]

theorem merge_documents_buffer_none {ds : List Document}
    (h : merge_documents_to ds = MergeOutcome.missingPagesRoot ∨
         merge_documents_to ds = MergeOutcome.missingCatalogRoot) :
    merge_documents ds = NapiResult.buffer none := by
  unfold merge_documents
  rcases h with h | h <;> rw [h]

theorem documentsObjects_no_pages (ds : List Document) (h1 : NoPagesTyped ds) :
    ∀ kv ∈ documentsObjects ds, kv.2.typeNameD ≠ "Pages" := by
  intro kv hkv
  obtain ⟨d', hd', hmem⟩ := mem_documentsObjects ds kv hkv
  obtain ⟨d, hd, s, heq⟩ := mem_preparedDocs ds d' hd'
  subst heq
  obtain ⟨kv0, hkv0, hkveq⟩ := mem_renumber_entries hmem
  rw [hkveq]
  show (substObj (replFor d.objects s) kv0.2).typeNameD ≠ "Pages"
  rw [typeNameD_substObj]
  exact h1 d hd kv0 hkv0

theorem documentsObjects_no_catalog (ds : List Document) (h1 : NoCatalogTyped ds) :
    ∀ kv ∈ documentsObjects ds, kv.2.typeNameD ≠ "Catalog" := by
  intro kv hkv
  obtain ⟨d', hd', hmem⟩ := mem_documentsObjects ds kv hkv
  obtain ⟨d, hd, s, heq⟩ := mem_preparedDocs ds d' hd'
  subst heq
  obtain ⟨kv0, hkv0, hkveq⟩ := mem_renumber_entries hmem
  rw [hkveq]
  show (substObj (replFor d.objects s) kv0.2).typeNameD ≠ "Catalog"
  rw [typeNameD_substObj]
  exact h1 d hd kv0 hkv0

theorem documentsObjects_has_pages (ds : List Document) (hwf : AllWF ds)
    (h : HasPagesDict ds) :
    ∃ kv ∈ documentsObjects ds,
      kv.2.typeNameD = "Pages" ∧ (kv.2.as_dict).isSome = true := by
  obtain ⟨d, hd, kv0, hkv0, ht, hds⟩ := h
  obtain ⟨s, hmem⟩ := preparedDocs_of_mem ds d hd
  have hent : (replFor d.objects s kv0.1, substObj (replFor d.objects s) kv0.2)
      ∈ (d.renumber_objects_with s).objects := by
    simp only [Document.renumber_objects_with]
    exact List.mem_map_of_mem _ hkv0
  rw [documentsObjects_eq_flatten ds hwf]
  refine ⟨(replFor d.objects s kv0.1, substObj (replFor d.objects s) kv0.2), ?_, ?_, ?_⟩
  · unfold flatObjects
    rw [List.mem_flatten]
    exact ⟨(d.renumber_objects_with s).objects, List.mem_map_of_mem _ hmem, hent⟩
  · show (substObj (replFor d.objects s) kv0.2).typeNameD = "Pages"
    rw [typeNameD_substObj]
    exact ht
  · show ((substObj (replFor d.objects s) kv0.2).as_dict).isSome = true
    rw [as_dict_substObj]
    cases hh : kv0.2.as_dict with
    | none => rw [hh] at hds; simp at hds
    | some dd => simp

/-- C3 counterexample: for an input with a Catalog but no Pages object,
and for an input with a Pages tree but no Catalog, the caller does not
receive any error: `mergePdf` resolves with an empty buffer in both cases,
so the two failures are not reported as distinguishable structured
errors. -/
theorem missing_roots_no_structured_error_counterexample :
    (merge_documents [docNoPages]).isError = false ∧
    merge_documents [docNoPages] = NapiResult.buffer none ∧
    (merge_documents [docNoCatalog]).isError = false ∧
    merge_documents [docNoCatalog] = NapiResult.buffer none :=
  ⟨rfl, rfl, rfl, rfl⟩

/-- C3 amended: when no input contains a Pages-typed object the merge takes
the missing-pages-root early return ("Pages root not found." printed) and
the caller receives an empty buffer; when no input contains a Catalog-typed
object but some input has a Pages dictionary, it takes the
missing-catalog-root early return ("Catalog root not found." printed) and
the caller receives an empty buffer.  The two cases are distinguishable
only by the printed diagnostic; no structured error reaches the caller. -/
theorem missing_roots_print_and_empty_buffer (ds es : List Document)
    (h1 : NoPagesTyped ds) (hwf : AllWF es) (h2 : NoCatalogTyped es)
    (h3 : HasPagesDict es) :
    (merge_documents_to ds = MergeOutcome.missingPagesRoot ∧
      merge_documents ds = NapiResult.buffer none) ∧
    (merge_documents_to es = MergeOutcome.missingCatalogRoot ∧
      merge_documents es = NapiResult.buffer none) := by
  have hpn : (classifyAll ds).pages_object = none :=
    (classifyAll_pages_none_iff ds).mpr
      (fun kv hkv hc => documentsObjects_no_pages ds h1 kv hkv hc.1)
  have hm1 := merge_missing_pages hpn
  have hcn : (classifyAll es).catalog_object = none :=
    (classifyAll_catalog_none_iff es).mpr (documentsObjects_no_catalog es h2)
  obtain ⟨kv, hkv, ht, hds⟩ := documentsObjects_has_pages es hwf h3
  obtain ⟨po, hpo⟩ : ∃ po, (classifyAll es).pages_object = some po := by
    cases h : (classifyAll es).pages_object with
    | none => exact absurd (((classifyAll_pages_none_iff es).mp h) kv hkv) (by tauto)
    | some po => exact ⟨po, rfl⟩
  have hm2 := merge_missing_catalog hpo hcn
  exact ⟨⟨hm1, merge_documents_buffer_none (Or.inl hm1)⟩,
    ⟨hm2, merge_documents_buffer_none (Or.inr hm2)⟩⟩

/-- C3 amended witness: the concrete no-Pages and no-Catalog documents take
the two early-return paths. -/
theorem missing_roots_print_and_empty_buffer_witness :
    NoPagesTyped [docNoPages] ∧ AllWF [docNoCatalog] ∧
    NoCatalogTyped [docNoCatalog] ∧ HasPagesDict [docNoCatalog] ∧
    merge_documents_to [docNoPages] = MergeOutcome.missingPagesRoot ∧
    merge_documents_to [docNoCatalog] = MergeOutcome.missingCatalogRoot :=
  ⟨by decide, by decide, by decide, by decide,
    (missing_roots_print_and_empty_buffer [docNoPages] [docNoCatalog]
      (by decide) (by decide) (by decide) (by decide)).1.1,
    (missing_roots_print_and_empty_buffer [docNoPages] [docNoCatalog]
      (by decide) (by decide) (by decide) (by decide)).2.1⟩

/-- C7: when several Pages dictionaries are classified, the accumulated
Pages dictionary's value at every key is the first value seen for that key
among the Pages-typed dictionaries in classification order: earlier-seen
keys take precedence over later same-named keys. -/
theorem pages_merge_first_seen_wins (ds : List Document)
    (hnd : PagesDictsKeysNodup ds) (k : String) :
    accPagesGet ds k = firstPagesValue ds k := by
  rcases classifyAll_pages ds hnd with ⟨hnone, hempty⟩ | ⟨pid, dct, hsome, -, -, hget⟩
  · unfold accPagesGet firstPagesValue pagesDictsOf
    rw [hnone, hempty]
    rfl
  · unfold accPagesGet firstPagesValue pagesDictsOf
    rw [hsome]
    exact hget k

/-- C7 witness: in the two-document example both Pages dictionaries carry
"Count"; the accumulator keeps the first document's value. -/
theorem pages_merge_first_seen_wins_witness :
    PagesDictsKeysNodup [docA, docB] ∧
    accPagesGet [docA, docB] "Count" = firstPagesValue [docA, docB] "Count" :=
  ⟨by decide, pages_merge_first_seen_wins [docA, docB] (by decide) "Count"⟩

/-- C8 counterexample: docA's catalog has "Extra" 1 and docB's has
"Extra" 2.  The merged catalog sits at the first catalog's id (1, 0) but
holds the second catalog's content ("Extra" = 2, not 1), so "only the first
Catalog object contributes to the merged catalog" is false. -/
theorem catalog_last_content_counterexample :
    trailerRootId [docA, docB] = some (1, 0) ∧
    catalogFieldInt [docA, docB] "Extra" = some 2 ∧
    catalogFieldInt [docA, docB] "Extra" ≠ some 1 :=
  ⟨by decide, by decide, by decide⟩

/-- C8 amended: the classification loop keeps the first-seen Catalog's
ObjectId as the designated root catalog id, but each later Catalog object
replaces the accumulator's object, so the merged catalog's content comes
from the last-seen Catalog object. -/
theorem catalog_first_id_last_content (ds : List Document) :
    designatedCatalogId ds = firstTypedId ds "Catalog" ∧
    designatedCatalogObj ds = lastTypedObj ds "Catalog" :=
  ⟨designatedCatalogId_eq_first ds, designatedCatalogObj_eq_last ds⟩

/-- C6: renumbering each input at the previous next-free identifier
(seeded with 1) yields pairwise-disjoint ObjectId sets; the merged object
table is the exact concatenation of the renumbered tables, its keys are
duplicate-free, the loop's final next-free identifier is 1 plus the total
object count, and each single call's next-free identifier is its start plus
its object count. -/
theorem renumbering_disjoint_ids (ds : List Document) (hwf : AllWF ds) :
    DocsDisjoint (preparedDocs ds) ∧
    documentsObjects ds = flatObjects (preparedDocs ds) ∧
    (btKeys (documentsObjects ds)).Nodup ∧
    (renumberAll ds 1).2 = 1 + totalObjCount ds ∧
    (∀ (d : Document) (s : Nat), 1 ≤ s →
      (d.renumber_objects_with s).max_id + 1 = s + d.objects.length) := by
  obtain ⟨hEach, hPair, hFinal, hLen⟩ := renumberAll_spec ds 1 (le_refl 1) hwf
  refine ⟨?_, documentsObjects_eq_flatten ds hwf,
    btKeys_nodup_of_sorted (documentsObjects_sorted ds), hFinal, ?_⟩
  · unfold DocsDisjoint
    refine hPair.imp ?_
    intro d1 d2 h id1 h1 id2 h2 heq
    subst heq
    exact Nat.lt_irrefl id1.1 (h id1 h1 id1 h2)
  · intro d s hs
    rw [renumber_max_id]
    omega

/-- C6 witness: the two example documents (4 and 5 objects) renumber into
ids 1-4 and 5-9 with next-free identifier 10. -/
theorem renumbering_disjoint_ids_witness :
    AllWF [docA, docB] ∧ DocsDisjoint (preparedDocs [docA, docB]) ∧
    (btKeys (documentsObjects [docA, docB])).Nodup ∧
    (renumberAll [docA, docB] 1).2 = 1 + totalObjCount [docA, docB] ∧
    (docA.renumber_objects_with 1).max_id + 1 = 1 + docA.objects.length :=
  ⟨by decide,
   (renumbering_disjoint_ids [docA, docB] (by decide)).1,
   (renumbering_disjoint_ids [docA, docB] (by decide)).2.2.1,
   (renumbering_disjoint_ids [docA, docB] (by decide)).2.2.2.1,
   (renumbering_disjoint_ids [docA, docB] (by decide)).2.2.2.2 docA 1 (by omega)⟩

theorem btKeys_pairwise_of_sorted {m : BtMap} (h : BtSorted m) :
    List.Pairwise idLt (btKeys m) := by
  rw [btKeys, List.pairwise_map]
  exact h

theorem mem_insertSortedId (id : ObjectId) (l : List ObjectId) (j : ObjectId) :
    j ∈ insertSortedId id l ↔ j = id ∨ j ∈ l := by
  induction l with
  | nil => simp [insertSortedId]
  | cons x rest ih =>
    simp only [insertSortedId]
    by_cases h1 : idLt id x
    · rw [if_pos h1]
      simp [List.mem_cons]
    · rw [if_neg h1]
      by_cases h2 : id = x
      · rw [if_pos h2]
        subst h2
        simp only [List.mem_cons]
        tauto
      · rw [if_neg h2]
        simp only [List.mem_cons, ih]
        tauto

theorem sorted_insertSortedId (id : ObjectId) {l : List ObjectId}
    (h : List.Pairwise idLt l) : List.Pairwise idLt (insertSortedId id l) := by
  induction l with
  | nil => simp [insertSortedId]
  | cons x rest ih =>
    rw [List.pairwise_cons] at h
    simp only [insertSortedId]
    by_cases h1 : idLt id x
    · rw [if_pos h1]
      rw [List.pairwise_cons]
      constructor
      · intro y hy
        rcases List.mem_cons.mp hy with hy | hy
        · exact hy ▸ h1
        · exact idLt_trans h1 (h.1 y hy)
      · rw [List.pairwise_cons]
        exact h
    · rw [if_neg h1]
      by_cases h2 : id = x
      · rw [if_pos h2]
        rw [List.pairwise_cons]
        exact h
      · rw [if_neg h2]
        rw [List.pairwise_cons]
        constructor
        · intro y hy
          rcases (mem_insertSortedId id rest y).mp hy with hy | hy
          · subst hy
            exact idLt_of_not_lt_of_ne h1 h2
          · exact h.1 y hy
        · exact ih h.2

theorem sortIdsDedup_sorted (l : List ObjectId) :
    List.Pairwise idLt (sortIdsDedup l) := by
  unfold sortIdsDedup
  suffices hgen : ∀ (l : List ObjectId) (acc : List ObjectId), List.Pairwise idLt acc →
      List.Pairwise idLt (l.foldl (fun acc id => insertSortedId id acc) acc) by
    exact hgen l [] (by simp)
  intro l
  induction l with
  | nil => exact fun acc h => h
  | cons x rest ih =>
    intro acc hacc
    simp only [List.foldl_cons]
    exact ih _ (sorted_insertSortedId x hacc)

theorem mem_sortIdsDedup (l : List ObjectId) (j : ObjectId) :
    j ∈ sortIdsDedup l ↔ j ∈ l := by
  unfold sortIdsDedup
  suffices hgen : ∀ (l : List ObjectId) (acc : List ObjectId),
      j ∈ l.foldl (fun acc id => insertSortedId id acc) acc ↔ j ∈ acc ∨ j ∈ l by
    rw [hgen l []]
    simp
  intro l
  induction l with
  | nil => simp
  | cons x rest ih =>
    intro acc
    simp only [List.foldl_cons]
    rw [ih, mem_insertSortedId]
    simp only [List.mem_cons]
    tauto

theorem sorted_eq_of_mem_iff : ∀ {l1 l2 : List ObjectId}, List.Pairwise idLt l1 →
    List.Pairwise idLt l2 → (∀ x, x ∈ l1 ↔ x ∈ l2) → l1 = l2 := by
  intro l1
  induction l1 with
  | nil =>
    intro l2 _ _ hmem
    cases l2 with
    | nil => rfl
    | cons b t2 => exact absurd ((hmem b).mpr (List.mem_cons_self _ _)) (by simp)
  | cons a t1 ih =>
    intro l2 h1 h2 hmem
    cases l2 with
    | nil => exact absurd ((hmem a).mp (List.mem_cons_self _ _)) (by simp)
    | cons b t2 =>
      rw [List.pairwise_cons] at h1 h2
      have hab : a = b := by
        by_contra hne
        have ha2 : a ∈ b :: t2 := (hmem a).mp (List.mem_cons_self _ _)
        have hb1 : b ∈ a :: t1 := (hmem b).mpr (List.mem_cons_self _ _)
        rcases List.mem_cons.mp ha2 with h | hat2
        · exact hne h
        · rcases List.mem_cons.mp hb1 with h | hbt1
          · exact hne h.symm
          · exact idLt_asymm (h2.1 a hat2) (h1.1 b hbt1)
      subst hab
      have htails : ∀ x, x ∈ t1 ↔ x ∈ t2 := by
        intro x
        constructor
        · intro hx
          have hxl2 : x ∈ a :: t2 := (hmem x).mp (List.mem_cons_of_mem _ hx)
          rcases List.mem_cons.mp hxl2 with h | h
          · exact absurd (h ▸ h1.1 x hx) (idLt_irrefl x)
          · exact h
        · intro hx
          have hxl1 : x ∈ a :: t1 := (hmem x).mpr (List.mem_cons_of_mem _ hx)
          rcases List.mem_cons.mp hxl1 with h | h
          · exact absurd (h ▸ h2.1 x hx) (idLt_irrefl x)
          · exact h
      rw [ih h1.2 h2.2 htails]

theorem filterMap_as_reference_map (l : List (ObjectId × Object)) :
    (l.map (fun p => Object.reference p.1)).filterMap Object.as_reference
      = l.map (·.1) := by
  induction l with
  | nil => rfl
  | cons x rest ih => simp [Object.as_reference, ih]

theorem mem_btKeys_pageEntries (d : Document) (j : ObjectId) :
    j ∈ btKeys (pageEntries d) ↔ j ∈ d.get_pages := by
  have hfun : List.map ((fun x : ObjectId × Object => x.1)
        ∘ fun id => (id, (btGet d.objects id).getD Object.null)) d.get_pages
      = d.get_pages := by
    have hid : ((fun x : ObjectId × Object => x.1)
        ∘ fun id => (id, (btGet d.objects id).getD Object.null))
        = fun (id : ObjectId) => id := by
      funext x
      rfl
    rw [hid, List.map_id']
  unfold pageEntries btFromList
  rw [mem_btKeys_btExtend]
  constructor
  · rintro (h | h)
    · simp [btKeys] at h
    · rw [btKeys, List.map_map, hfun] at h
      exact h
  · intro h
    right
    rw [btKeys, List.map_map, hfun]
    exact h

theorem mem_btKeys_documentsPages (ds : List Document) (hwf : AllWF ds) (j : ObjectId) :
    j ∈ btKeys (documentsPages ds) ↔ j ∈ allHarvestedIds ds := by
  constructor
  · intro hj
    rw [btKeys, List.mem_map] at hj
    obtain ⟨x, hx, hx1⟩ := hj
    obtain ⟨d', hd', hxp⟩ := mem_documentsPages ds x hx
    unfold allHarvestedIds
    rw [List.mem_flatten]
    refine ⟨d'.get_pages, List.mem_map_of_mem _ hd', ?_⟩
    rw [← hx1]
    exact (pageEntries_mem d' x hxp).1
  · intro hj
    unfold allHarvestedIds at hj
    rw [List.mem_flatten] at hj
    obtain ⟨l, hl, hjl⟩ := hj
    rw [List.mem_map] at hl
    obtain ⟨d', hd', hleq⟩ := hl
    subst hleq
    have hkey : j ∈ btKeys (pageEntries d') := (mem_btKeys_pageEntries d' j).mpr hjl
    rw [documentsPages_eq_flatten ds hwf, btKeys, List.mem_map]
    rw [btKeys, List.mem_map] at hkey
    obtain ⟨x, hx, hx1⟩ := hkey
    exact ⟨x, List.mem_flatten.mpr ⟨pageEntries d', List.mem_map_of_mem _ hd', hx⟩, hx1⟩

/-- C2 counterexample: `docReversed`'s page tree lists its two pages in the
order (4,0) then (3,0), but the merged root's Kids sequence is in ascending
ObjectId order (3,0) then (4,0): the Nth Kid is not the Nth page of the
inputs in original page order. -/
theorem kids_not_in_page_order_counterexample :
    allHarvestedIds [docReversed] = [(4, 0), (3, 0)] ∧
    rootKidsIds [docReversed] = some [(3, 0), (4, 0)] ∧
    rootKidsIds [docReversed] ≠ some (allHarvestedIds [docReversed]) :=
  ⟨by decide, by decide, by decide⟩

/-- C2 amended: the merged root's Kids sequence enumerates exactly the
harvested page ids in strictly ascending ObjectId order (the
`documents_pages` BTreeMap's key order), not in original page order.
Across documents this coincides with input order (each document's
renumbered ids form a later contiguous block), but within a document it is
ascending object-id order. -/
theorem merged_kids_sorted_ids (ds : List Document)
    (hwf : AllWF ds) (hok : mergeOk ds = true) :
    rootKidsIds ds = some (sortIdsDedup (allHarvestedIds ds)) := by
  obtain ⟨d, hd⟩ := (mergeOk_iff ds).mp hok
  obtain ⟨po, co, hpo, hco, hdoc⟩ := merge_ok_inv hd
  obtain ⟨pdct, hpdct⟩ := classifyAll_pages_isdict ds hpo
  have hpad : po.2.as_dict = some pdct := by rw [hpdct]; rfl
  have hrpd := rootPagesDict_eq hd hpo hco hpad
  unfold rootKidsIds
  rw [hrpd]
  dsimp only
  rw [dictGet_dictSet_self]
  dsimp only
  rw [filterMap_as_reference_map]
  congr 1
  apply sorted_eq_of_mem_iff
  · exact btKeys_pairwise_of_sorted (documentsPages_sorted ds)
  · exact sortIdsDedup_sorted _
  · intro x
    rw [mem_sortIdsDedup]
    exact mem_btKeys_documentsPages ds hwf x

/-- C2 amended witness: the two example documents yield Kids ids
(3,0),(4,0),(7,0),(8,0),(9,0), the ascending enumeration of the harvested
ids. -/
theorem merged_kids_sorted_ids_witness :
    AllWF [docA, docB] ∧ mergeOk [docA, docB] = true ∧
    rootKidsIds [docA, docB] = some (sortIdsDedup (allHarvestedIds [docA, docB])) :=
  ⟨by decide, by decide, merged_kids_sorted_ids [docA, docB] (by decide) (by decide)⟩

theorem typeNameD_dictionary (d : Dict) :
    (Object.dictionary d).typeNameD = (dictTypeName d).getD "" := rfl

theorem btGet_mergeObjs2_ne (ds : List Document) (po : ObjectId × Object)
    {j : ObjectId} (h : j ≠ po.1) :
    btGet (mergeObjs2 ds po) j = btGet (mergeObjs1 ds po.1) j := by
  unfold mergeObjs2
  cases po.2.as_dict with
  | some dictionary => exact btGet_btInsert_ne _ _ h
  | none => rfl

theorem rebuiltCatalog_type {ds : List Document} {co : ObjectId × Object} {cdct : Dict}
    (hco : (classifyAll ds).catalog_object = some co)
    (hcdct : co.2 = Object.dictionary cdct) (pid : ObjectId) :
    (Object.dictionary
      (dictRemove (dictSet cdct "Pages" (.reference pid)) "Outlines")).typeNameD
      = "Catalog" := by
  have hct : co.2.typeNameD = "Catalog" := catalog_obj_typed ds hco
  have hct2 : dictTypeName cdct = some "Catalog" := by
    have h2 := type_name_of_typeNameD (by decide) hct
    rw [hcdct] at h2
    simpa [Object.type_name] using h2
  rw [typeNameD_dictionary, dictTypeName_dictRemove _ (by decide),
    dictTypeName_dictSet _ _ (by decide), hct2]
  rfl

theorem rebuiltPages_type {ds : List Document} {po : ObjectId × Object} {pdct : Dict}
    (hnd : PagesDictsKeysNodup ds)
    (hpo : (classifyAll ds).pages_object = some po)
    (hpdct : po.2 = Object.dictionary pdct) (cnt : Int) (kids : List Object) :
    (Object.dictionary
      (dictSet (dictSet pdct "Count" (.integer cnt)) "Kids" (.array kids))).typeNameD
      = "Pages" := by
  have hpt : dictTypeName pdct = some "Pages" :=
    rootPages_dict_type hnd
      (show (classifyAll ds).pages_object = some (po.1, Object.dictionary pdct) by
        rw [hpo, ← hpdct])
  rw [typeNameD_dictionary, dictTypeName_dictSet _ _ (by decide),
    dictTypeName_dictSet _ _ (by decide), hpt]
  rfl

theorem countP_eq_one_of_unique {α : Type} {l : List α} {p : α → Bool} {a : α}
    (hnd : l.Nodup) (ha : a ∈ l) (hpa : p a = true)
    (huniq : ∀ x ∈ l, p x = true → x = a) :
    l.countP p = 1 := by
  induction l with
  | nil => simp at ha
  | cons x rest ih =>
    rw [List.nodup_cons] at hnd
    rw [List.countP_cons]
    rcases List.mem_cons.mp ha with hxa | ha'
    · have hz : rest.countP p = 0 := by
        rw [List.countP_eq_zero]
        intro y hy hpy
        have hya : y = a := huniq y (List.mem_cons_of_mem _ hy) hpy
        apply hnd.1
        rw [← (hya.trans hxa)]
        exact hy
      rw [hz, ← hxa, hpa]
      rfl
    · have hxa : p x = false := by
        by_contra hb
        rw [Bool.not_eq_false] at hb
        have hxeq : x = a := huniq x (List.mem_cons_self _ _) hb
        apply hnd.1
        rw [hxeq]
        exact ha'
      rw [hxa]
      have hrest : rest.countP p = 1 :=
        ih hnd.2 ha' (fun y hy hpy => huniq y (List.mem_cons_of_mem _ hy) hpy)
      rw [hrest]
      rfl

/-- C4: on every well-formed input on which the merge succeeds, the merged
document designates a root Pages id, and every Page-typed object of the
output graph has its "Parent" field referencing exactly that designated
root Pages id (the page-reinsertion loop overwrites every page's "Parent";
the only other output objects are the rebuilt Catalog, the rebuilt root
Pages node, and pass-through objects of other types, none of which is
Page-typed). -/
theorem page_parents_redirected (ds : List Document)
    (hnd : PagesDictsKeysNodup ds) (hcd : CatalogObjectsAreDicts ds)
    (hok : mergeOk ds = true) :
    (designatedPagesId ds).isSome = true ∧
    ∀ id o, lookupMerged ds id = some o → o.typeNameD = "Page" →
      parentRefAt ds id = designatedPagesId ds := by
  obtain ⟨d, hd⟩ := (mergeOk_iff ds).mp hok
  obtain ⟨po, co, hpo, hco, hdoc⟩ := merge_ok_inv hd
  have hdesig : designatedPagesId ds = some po.1 := by
    unfold designatedPagesId
    rw [hpo]
    rfl
  refine ⟨by rw [hdesig]; rfl, ?_⟩
  intro id o hlook htype
  obtain ⟨pdct, hpdct⟩ := classifyAll_pages_isdict ds hpo
  have hpad : po.2.as_dict = some pdct := by rw [hpdct]; rfl
  obtain ⟨cdct, hcdct⟩ := catalog_obj_dict ds hcd hco
  have hcad : co.2.as_dict = some cdct := by rw [hcdct]; rfl
  have hobj : d.objects = mergeObjs3 ds po co := by rw [hdoc]
  have hget : btGet (mergeObjs3 ds po co) id = some o := by
    rw [← hobj, ← lookupMerged_eq hd]
    exact hlook
  by_cases hidc : id = co.1
  · subst hidc
    rw [btGet_mergeObjs3_self ds po co hcad] at hget
    injection hget with hget
    exfalso
    have hcat := rebuiltCatalog_type hco hcdct po.1
    rw [hget, htype] at hcat
    exact absurd hcat (by decide)
  · rw [btGet_mergeObjs3_ne ds po co hidc] at hget
    by_cases hidp : id = po.1
    · subst hidp
      rw [btGet_mergeObjs2_self ds po hpad] at hget
      injection hget with hget
      exfalso
      have hpag := rebuiltPages_type hnd hpo hpdct (documentsPages ds).length
        ((documentsPages ds).map (fun p => .reference p.1))
      rw [hget, htype] at hpag
      exact absurd hpag (by decide)
    · rw [btGet_mergeObjs2_ne ds po hidp] at hget
      have hmem : (id, o) ∈ mergeObjs1 ds po.1 := mem_of_btGet_eq_some hget
      rcases mem_mergeObjs1 ds po.1 (id, o) hmem with hout | ⟨entry, hentry, pd, hpd, hx⟩
      · exfalso
        rcases (classify_outObjects (documentsObjects ds) ⟨none, none, []⟩).2 (id, o) hout
          with h0 | ⟨-, -, -, hP, -, -⟩
        · simp at h0
        · exact hP htype
      · have ho : o = Object.dictionary (dictSet pd "Parent" (.reference po.1)) :=
          congrArg Prod.snd hx
        have hdictAt : dictAt ds id = some (dictSet pd "Parent" (.reference po.1)) := by
          unfold dictAt
          rw [hlook, ho]
          rfl
        unfold parentRefAt
        rw [hdictAt]
        dsimp only
        rw [dictGet_dictSet_self]
        dsimp only
        rw [hdesig]

/-- C4 witness: in the merge of the two example documents, the page stored
at id (3,0) is Page-typed and its "Parent" is the designated root Pages id
(2,0). -/
theorem page_parents_redirected_witness :
    PagesDictsKeysNodup [docA, docB] ∧ CatalogObjectsAreDicts [docA, docB] ∧
    mergeOk [docA, docB] = true ∧
    parentRefAt [docA, docB] (3, 0) = designatedPagesId [docA, docB] :=
  ⟨by decide, by decide, by decide,
   (page_parents_redirected [docA, docB] (by decide) (by decide) (by decide)).2 (3, 0)
     (Object.dictionary [("Type", Object.name "Page"), ("Parent", Object.reference (2, 0))])
     (by rfl) (by rfl)⟩

/-- C5: on every well-formed input on which the merge succeeds, the output
graph holds exactly one Catalog-typed object and exactly one Pages-typed
object; the trailer's "Root" references the designated Catalog id, the
object there is Catalog-typed, that catalog's "Pages" field references the
designated root Pages id, and the object there is Pages-typed. -/
theorem single_catalog_single_pages (ds : List Document)
    (hnd : PagesDictsKeysNodup ds) (hcd : CatalogObjectsAreDicts ds)
    (hok : mergeOk ds = true) :
    countTypeAmong ds "Catalog" = 1 ∧ countTypeAmong ds "Pages" = 1 ∧
    trailerRootId ds = designatedCatalogId ds ∧
    (designatedCatalogId ds).bind (typeAt ds) = some "Catalog" ∧
    catalogPagesRefId ds = designatedPagesId ds ∧
    (designatedPagesId ds).bind (typeAt ds) = some "Pages" := by
  obtain ⟨d, hd⟩ := (mergeOk_iff ds).mp hok
  obtain ⟨po, co, hpo, hco, hdoc⟩ := merge_ok_inv hd
  obtain ⟨pdct, hpdct⟩ := classifyAll_pages_isdict ds hpo
  have hpad : po.2.as_dict = some pdct := by rw [hpdct]; rfl
  obtain ⟨cdct, hcdct⟩ := catalog_obj_dict ds hcd hco
  have hcad : co.2.as_dict = some cdct := by rw [hcdct]; rfl
  have hobj : d.objects = mergeObjs3 ds po co := by rw [hdoc]
  have hpc : po.1 ≠ co.1 := pages_ne_catalog_id ds hpo hco
  have hdesigP : designatedPagesId ds = some po.1 := by
    unfold designatedPagesId
    rw [hpo]
    rfl
  have hdesigC : designatedCatalogId ds = some co.1 := by
    unfold designatedCatalogId
    rw [hco]
    rfl
  have hgetC : btGet (mergeObjs3 ds po co) co.1
      = some (Object.dictionary
          (dictRemove (dictSet cdct "Pages" (.reference po.1)) "Outlines")) :=
    btGet_mergeObjs3_self ds po co hcad
  have hgetP : btGet (mergeObjs3 ds po co) po.1
      = some (Object.dictionary
          (dictSet (dictSet pdct "Count" (.integer (documentsPages ds).length))
            "Kids" (.array ((documentsPages ds).map (fun p => .reference p.1))))) := by
    rw [btGet_mergeObjs3_ne ds po co hpc]
    exact btGet_mergeObjs2_self ds po hpad
  have htC := rebuiltCatalog_type hco hcdct po.1
  have htP := rebuiltPages_type hnd hpo hpdct (documentsPages ds).length
    ((documentsPages ds).map (fun p => .reference p.1))
  have hM3 : mergeObjs3 ds po co
      = btInsert (mergeObjs2 ds po) co.1
          (Object.dictionary
            (dictRemove (dictSet cdct "Pages" (.reference po.1)) "Outlines")) := by
    unfold mergeObjs3
    rw [hcad]
  have hM2 : mergeObjs2 ds po
      = btInsert (mergeObjs1 ds po.1) po.1
          (Object.dictionary
            (dictSet (dictSet pdct "Count" (.integer (documentsPages ds).length))
              "Kids" (.array ((documentsPages ds).map (fun p => .reference p.1))))) := by
    unfold mergeObjs2
    rw [hpad]
  have hdecomp : ∀ x ∈ mergeObjs3 ds po co,
      x = (co.1, Object.dictionary
            (dictRemove (dictSet cdct "Pages" (.reference po.1)) "Outlines")) ∨
      x = (po.1, Object.dictionary
            (dictSet (dictSet pdct "Count" (.integer (documentsPages ds).length))
              "Kids" (.array ((documentsPages ds).map (fun p => .reference p.1))))) ∨
      (x.2.typeNameD ≠ "Catalog" ∧ x.2.typeNameD ≠ "Pages") := by
    intro x hx
    rw [hM3] at hx
    rcases (mem_btInsert_iff (mergeObjs2_sorted ds po) _ _ x).mp hx with hxc | ⟨hx2, hnec⟩
    · exact Or.inl hxc
    · rw [hM2] at hx2
      rcases (mem_btInsert_iff (mergeObjs1_sorted ds po.1) _ _ x).mp hx2
        with hxp | ⟨hx1, hnep⟩
      · exact Or.inr (Or.inl hxp)
      · refine Or.inr (Or.inr ?_)
        rcases mem_mergeObjs1 ds po.1 x hx1 with hout | ⟨entry, hentry, pd, hpd, hxe⟩
        · rcases (classify_outObjects (documentsObjects ds) ⟨none, none, []⟩).2 x hout
            with h0 | ⟨-, h1, h2, -, -, -⟩
          · simp at h0
          · exact ⟨h1, h2⟩
        · obtain ⟨d', hd', hpe⟩ := mem_documentsPages ds entry hentry
          obtain ⟨-, pd', hpd', hty, -⟩ := pageEntries_mem d' entry hpe
          have hpp : pd = pd' := by
            rw [hpd] at hpd'
            injection hpd'
          have hx2eq : x.2 = Object.dictionary (dictSet pd "Parent" (.reference po.1)) :=
            congrArg Prod.snd hxe
          have hxty : x.2.typeNameD = "Page" := by
            rw [hx2eq, typeNameD_dictionary, dictTypeName_dictSet _ _ (by decide),
              hpp, hty]
            rfl
          rw [hxty]
          exact ⟨by decide, by decide⟩
  have hndup : (mergeObjs3 ds po co).Nodup :=
    List.Nodup.of_map _ (btKeys_nodup_of_sorted (mergeObjs3_sorted ds po co))
  have hMO : mergedObjects ds = mergeObjs3 ds po co := by
    unfold mergedObjects
    rw [mergedDoc_of_ok hd]
    show d.objects = mergeObjs3 ds po co
    exact hobj
  have hcount1 : countTypeAmong ds "Catalog" = 1 := by
    unfold countTypeAmong
    rw [hMO]
    refine countP_eq_one_of_unique hndup (mem_of_btGet_eq_some hgetC) ?_ ?_
    · rw [show ((co.1, Object.dictionary
          (dictRemove (dictSet cdct "Pages" (.reference po.1)) "Outlines")) :
            ObjectId × Object).2.typeNameD
          = "Catalog" from htC]
      rfl
    · intro x hx hpx
      rw [beq_iff_eq] at hpx
      rcases hdecomp x hx with hxeq | hxeq | ⟨hne1, hne2⟩
      · exact hxeq
      · exfalso
        have : x.2.typeNameD = "Pages" := by
          rw [hxeq]
          exact htP
        rw [hpx] at this
        exact absurd this (by decide)
      · exact absurd hpx hne1
  have hcount2 : countTypeAmong ds "Pages" = 1 := by
    unfold countTypeAmong
    rw [hMO]
    refine countP_eq_one_of_unique hndup (mem_of_btGet_eq_some hgetP) ?_ ?_
    · rw [show ((po.1, Object.dictionary
          (dictSet (dictSet pdct "Count" (.integer (documentsPages ds).length))
            "Kids" (.array ((documentsPages ds).map (fun p => .reference p.1))))) :
            ObjectId × Object).2.typeNameD
          = "Pages" from htP]
      rfl
    · intro x hx hpx
      rw [beq_iff_eq] at hpx
      rcases hdecomp x hx with hxeq | hxeq | ⟨hne1, hne2⟩
      · exfalso
        have : x.2.typeNameD = "Catalog" := by
          rw [hxeq]
          exact htC
        rw [hpx] at this
        exact absurd this (by decide)
      · exact hxeq
      · exact absurd hpx hne2
  have htr : trailerRootId ds = some co.1 := by
    unfold trailerRootId
    rw [mergedDoc_of_ok hd, hdoc]
    rfl
  have hdACat : dictAt ds co.1
      = some (dictRemove (dictSet cdct "Pages" (.reference po.1)) "Outlines") := by
    unfold dictAt
    rw [lookupMerged_eq hd, hobj, hgetC]
    rfl
  have hcp : catalogPagesRefId ds = some po.1 := by
    unfold catalogPagesRefId
    rw [htr]
    rw [show (some co.1).bind (dictAt ds) = dictAt ds co.1 from rfl, hdACat]
    dsimp only
    rw [dictGet_dictRemove_ne _ (by decide), dictGet_dictSet_self]
  have htyC : typeAt ds co.1 = some "Catalog" := by
    unfold typeAt
    rw [lookupMerged_eq hd, hobj, hgetC]
    show (Object.dictionary
      (dictRemove (dictSet cdct "Pages" (.reference po.1)) "Outlines")).type_name
      = some "Catalog"
    exact type_name_of_typeNameD (by decide) htC
  have htyP : typeAt ds po.1 = some "Pages" := by
    unfold typeAt
    rw [lookupMerged_eq hd, hobj, hgetP]
    show (Object.dictionary
      (dictSet (dictSet pdct "Count" (.integer (documentsPages ds).length))
        "Kids" (.array ((documentsPages ds).map (fun p => .reference p.1))))).type_name
      = some "Pages"
    exact type_name_of_typeNameD (by decide) htP
  refine ⟨hcount1, hcount2, htr.trans hdesigC.symm, ?_, hcp.trans hdesigP.symm, ?_⟩
  · rw [hdesigC]
    exact htyC
  · rw [hdesigP]
    exact htyP

/-- C5 witness: the merge of the two example documents has exactly one
Catalog and one Pages object; its trailer Root and catalog "Pages" resolve
to them. -/
theorem single_catalog_single_pages_witness :
    PagesDictsKeysNodup [docA, docB] ∧ CatalogObjectsAreDicts [docA, docB] ∧
    mergeOk [docA, docB] = true ∧
    (countTypeAmong [docA, docB] "Catalog" = 1 ∧
     countTypeAmong [docA, docB] "Pages" = 1 ∧
     trailerRootId [docA, docB] = designatedCatalogId [docA, docB] ∧
     (designatedCatalogId [docA, docB]).bind (typeAt [docA, docB]) = some "Catalog" ∧
     catalogPagesRefId [docA, docB] = designatedPagesId [docA, docB] ∧
     (designatedPagesId [docA, docB]).bind (typeAt [docA, docB]) = some "Pages") :=
  ⟨by decide, by decide, by decide,
   single_catalog_single_pages [docA, docB] (by decide) (by decide) (by decide)⟩
